import Mathlib

/- Shallow embedding of the condition-evaluation, navigation and digit-entry
state machine of src/renderer/js/survey-form.js (classes ConditionEvaluator,
Navigator, AnswerHandler, InputRouter, FormState). DOM state relevant to
these claims is modelled explicitly: elements carry their css class flags
and the reset-able input controls of their subtree; answers are the checked
input values of a named field. -/

namespace SurveyForm

/-- Association-list lookup, modelling JS `Map.get` and object indexing.
Returns the first binding of the key, `none` when absent. -/
def lookupA {β : Type} (k : String) : List (String × β) → Option β
  | [] => none
  | (k', v) :: rest => if k' = k then some v else lookupA k rest

/-- Association-list update, modelling JS `Map.set`: replaces the first
binding in place, appends at the end when the key is new. -/
def setA {β : Type} (k : String) (v : β) : List (String × β) → List (String × β)
  | [] => [(k, v)]
  | (k', v') :: rest => if k' = k then (k, v) :: rest else (k', v') :: setA k v rest

/-- Association-list removal, modelling JS `Map.delete`. -/
def removeA {β : Type} (k : String) : List (String × β) → List (String × β)
  | [] => []
  | (k', v') :: rest => if k' = k then removeA k rest else (k', v') :: removeA k rest

/-- Key-set insertion for `_manualOverrides` (a Map whose values are always
the string `open`, so only key membership matters); `Map.set` appends new
keys at the end. -/
def addKey (k : String) (l : List String) : List String :=
  if k ∈ l then l else l ++ [k]

/-- Key-set removal for `_manualOverrides`, modelling `Map.delete`. -/
def removeKey (k : String) (l : List String) : List String :=
  l.filter (fun x => x ≠ k)

/-! Digit-entry disambiguator (AnswerHandler). -/

/-- `AnswerHandler.DIGIT_WAIT_MS`: wait before a lone buffered digit is
auto-committed. -/
def DIGIT_WAIT_MS : Nat := 500

/-- Observable effect of one `AnswerHandler._handleTwoDigitInput` call:
either `onSelect(n)` fires immediately, or the digit is buffered with a
single-shot timer armed for `delayMs` milliseconds. -/
inductive DigitOutcome
  | commit (n : Nat)
  | buffered (pending : Nat) (delayMs : Nat)
deriving DecidableEq

/-- `AnswerHandler._handleTwoDigitInput(digit, maxValue, onSelect)`.
`digitBuffer` is `FormState.digitBuffer` (`none` models the empty string,
`some b` a single buffered digit `b`). Returns the new buffer and the
outcome; `parseInt(buffered ++ digit)` on a one-digit buffer is `10*b + d`. -/
def handleTwoDigitInput (digitBuffer : Option Nat) (d : Nat) (maxValue : Nat) :
    Option Nat × DigitOutcome :=
  let maxFirstDigit := maxValue / 10
  match digitBuffer with
  | some b => (none, DigitOutcome.commit (10 * b + d))
  | none =>
    if 1 ≤ d ∧ d ≤ maxFirstDigit then (some d, DigitOutcome.buffered d DIGIT_WAIT_MS)
    else (none, DigitOutcome.commit d)

/-- Expiry of the armed digit timer: the buffer is cleared and its content
committed via `onSelect` (the timer is only alive while the buffer is
non-empty). Returns the new buffer and the committed number, if any. -/
def digitTimerFire (digitBuffer : Option Nat) : Option Nat × Option Nat :=
  (none, digitBuffer)

/-! Selection commits (AnswerHandler). -/

/-- One choice input element of a question (`input[type=radio]` or
`input[type=checkbox]`), in document order inside its group. -/
structure OptInput where
  isCheckbox : Bool
  value : Int
  checked : Bool
deriving DecidableEq

/-- `AnswerHandler._selectOptionCached(question, num, cache)`: the effect on
the question's option inputs. Out-of-range `num` returns unchanged. For a
radio group, checking one input unchecks its siblings (browser radio-group
behaviour relied upon by the source). -/
def selectOptionCached (inputs : List OptInput) (num : Int) : List OptInput :=
  if num < 1 ∨ num > inputs.length then inputs
  else
    match inputs.get? (num.toNat - 1) with
    | none => inputs
    | some input =>
      if input.isCheckbox then
        inputs.mapIdx (fun i e =>
          if i = num.toNat - 1 then { e with checked := !e.checked } else e)
      else
        inputs.mapIdx (fun i e =>
          if i = num.toNat - 1 then { e with checked := !input.checked }
          else { e with checked := false })

/-- `AnswerHandler._selectTableRadio(question, rowName, radio)`: unchecks the
whole row, then checks the chosen radio unless it was already checked. -/
def selectTableRadio (radios : List OptInput) (idx : Nat) : List OptInput :=
  match radios.get? idx with
  | none => radios
  | some radio =>
    let cleared := radios.map (fun r => { r with checked := false })
    if radio.checked then cleared
    else cleared.mapIdx (fun i e => if i = idx then { e with checked := true } else e)

/-- The commit callback `_handleTableDigit` passes to `_handleTwoDigitInput`:
guards `1 <= num <= radios.length` before `_selectTableRadio`. -/
def tableDigitCommit (radios : List OptInput) (num : Int) : List OptInput :=
  if 1 ≤ num ∧ num ≤ radios.length then selectTableRadio radios (num.toNat - 1)
  else radios

/-- `AnswerHandler._selectScaleValue(question, value)`: rejects only
`value < 0` or `value > scaleMax`; otherwise finds the input whose value
matches and toggles it (checking it unchecks the rest of the radio group). -/
def selectScaleValue (scaleMax : Int) (inputs : List OptInput) (value : Int) :
    List OptInput :=
  if value < 0 ∨ value > scaleMax then inputs
  else
    match inputs.findIdx? (fun inp => inp.value == value) with
    | none => inputs
    | some j =>
      match inputs.get? j with
      | none => inputs
      | some input =>
        inputs.mapIdx (fun i e =>
          if i = j then { e with checked := !input.checked }
          else { e with checked := false })

/-! Keyboard routing (InputRouter._handleKeydown, digit-key branch). -/

/-- What the digit-key branch of `InputRouter._handleKeydown` does, given
that no modal is open and the active element is not a text control. -/
inductive KeyEffect
  | ignored
  | rejectToId (msg : String)
  | handleDigit (d : Nat)
deriving DecidableEq

/-- Digit-key branch of `InputRouter._handleKeydown`: the branch runs only
when `questionIndex >= 0`; inside it, an empty identifier rejects the press
(`onIdRequired` message plus `navigator.focusId()`), otherwise the digit is
forwarded to `AnswerHandler.handleDigitInput`. When `questionIndex` is the
`-1` sentinel the branch is skipped and the keydown falls through. -/
def routeDigitKey (questionIndex : Int) (hasValidId : Bool) (d : Nat) : KeyEffect :=
  if 0 ≤ questionIndex then
    if hasValidId then KeyEffect.handleDigit d
    else KeyEffect.rejectToId "先にIDを入力してください"
  else KeyEffect.ignored

/-- Scale inputs with values 0..10, as built for a `scale` question with
`min: 0, max: 10` (the documented happiness-scale example). -/
def scaleInputs0to10 : List OptInput :=
  (List.range 11).map (fun v => { isCheckbox := false, value := (v : Int), checked := false })

/-! Condition table, DOM containers and evaluator state
(ConditionEvaluator, FormState, Navigator). -/

/-- One entry of `config.conditionMap[parentId]`. -/
structure Cond where
  targetId : String
  showValues : List Int
  isSection : Bool
deriving DecidableEq

/-- The reset-able input controls inside one element's subtree, as touched
by `ConditionEvaluator._clearInputs`: choice inputs (checked state), text
and number inputs, textareas, selects (selectedIndex). -/
structure Inputs where
  checked : List Bool
  texts : List String
  textareas : List String
  selects : List Nat
deriving DecidableEq

/-- `ConditionEvaluator._clearInputs(container)`: unchecks every checked
input, empties text inputs and textareas, resets selects to index 0. -/
def Inputs.clear (i : Inputs) : Inputs :=
  { checked := i.checked.map (fun _ => false)
    texts := i.texts.map (fun _ => "")
    textareas := i.textareas.map (fun _ => "")
    selects := i.selects.map (fun _ => 0) }

/-- Every control is in its reset state. -/
def Inputs.clearedb (i : Inputs) : Bool :=
  i.checked.all (fun b => !b) && i.texts.all (fun t => t == "") &&
    i.textareas.all (fun t => t == "") && i.selects.all (fun n => n == 0)

/-- One DOM container (a question element `q_<id>` or a section `<id>`):
its `conditional` and `show` css classes (`shown` models membership of
`show`), the input controls directly in its subtree, the ids of the other
modelled elements inside its subtree (whose inputs `_clearInputs` also
reaches), whether it is a `table`-type question, the id of its nearest
`.conditional` ancestor, if any, and the names of the answer fields whose
`input[name=...]` nodes sit directly in its subtree (the aliasing through
which `_clearInputs` also erases answers; empty when no modelled answer
lives inside the container). -/
structure Elem where
  conditional : Bool
  shown : Bool
  inputs : Inputs
  nested : List String
  isTable : Bool
  parentCond : Option String
  ownFields : List String := []
deriving DecidableEq

/-- The state of one answer field `input[name=<field>]`: whether its inputs
are checkboxes (how the source picks the `fieldType` argument), and the
numeric values currently checked, in document order. -/
structure Field where
  isCheckbox : Bool
  checkedValues : List Int
deriving DecidableEq

/-- Combined state: static config (`conditionMap`, `tableConfigs`), DOM
(`fields` for answers, `elements` for containers, `questionList` as the
flattened list of question ids), evaluator state (`_visibilityCache`,
`_manualOverrides`, `_showAll`) and the navigation cursor
(`questionIndex`, `tableRowIndex`). -/
structure FormSt where
  conditionMap : List (String × List Cond)
  tableConfigs : List (String × List String)
  fields : List (String × Field)
  elements : List (String × Elem)
  questionList : List String
  visibilityCache : List (String × Bool)
  manualOverrides : List String
  showAll : Bool
  questionIndex : Int
  tableRowIndex : Nat
deriving DecidableEq

/-- `document.querySelector('input[type=checkbox][name=<f>]')` presence,
the source's way of picking `'checkbox'` versus `'radio'`. -/
def fieldTypeIsCheckbox (s : FormSt) (name : String) : Bool :=
  match lookupA name s.fields with
  | some f => f.isCheckbox
  | none => false

/-- Values of `input[name=<f>]:checked` in document order. -/
def checkedValuesOf (s : FormSt) (name : String) : List Int :=
  match lookupA name s.fields with
  | some f => f.checkedValues
  | none => []

/-- Per-entry test of `_evaluateRadio`: the first checked value exists
(`value !== ''`) and lies in the entry's `showValues`. -/
def radioShouldShow (values : List Int) (c : Cond) : Bool :=
  match values.head? with
  | some v => c.showValues.contains v
  | none => false

/-- Per-entry test of `_evaluateCheckbox`: some checked value lies in
`showValues`. -/
def checkboxShouldShow (values : List Int) (c : Cond) : Bool :=
  values.any (fun v => c.showValues.contains v)

/-- The test `evaluate(name, fieldType)` applies to one entry, by type. -/
def entryShouldShow (isCheckboxType : Bool) (values : List Int) (c : Cond) : Bool :=
  if isCheckboxType then checkboxShouldShow values c else radioShouldShow values c

/-- The control half of `_clearInputs` on element `tid`: reset the input
controls of `tid` and of every element nested in its subtree
(`_clearInputs` reaches the whole container subtree). The same DOM write
also unchecks the answer inputs living there — that half is
`clearFieldsIn (fieldsUnder tid ...)`, applied by `processTargetDom`. -/
def clearUnder (tid : String) (elements : List (String × Elem)) : List (String × Elem) :=
  match lookupA tid elements with
  | none => elements
  | some t =>
    elements.map (fun p =>
      (p.1, if p.1 = tid ∨ p.1 ∈ t.nested then { p.2 with inputs := p.2.inputs.clear }
        else p.2))

/-- Shared tail of the per-entry branch of `_evaluateRadio` and
`_evaluateCheckbox` once the skip checks passed: fetch the target element
(absent targets are skipped), record the new visibility in the cache,
toggle the `show` class, and clear the subtree's inputs when the target
became hidden. Answers-static restriction of `processTargetDom` below,
which additionally unchecks the aliased answer inputs; the restriction is
adequate for a single parent's loop, which snapshots the parent's answer
before iterating. -/
def processTarget (s : FormSt) (tid : String) (shouldShow : Bool) : FormSt :=
  match lookupA tid s.elements with
  | none => s
  | some t =>
    let cache := setA tid shouldShow s.visibilityCache
    let elements := setA tid { t with shown := shouldShow } s.elements
    let elements := if shouldShow then elements else clearUnder tid elements
    { s with visibilityCache := cache, elements := elements }

/-- One iteration of the `for (const cond of conditions)` loop of
`_evaluateRadio` / `_evaluateCheckbox`: skip under show-all mode or a
manual override, skip when the cached visibility already equals the new
value, otherwise run `processTarget`. -/
def evalCondStep (isCheckboxType : Bool) (values : List Int) (s : FormSt) (c : Cond) :
    FormSt :=
  if s.showAll = true ∨ c.targetId ∈ s.manualOverrides then s
  else
    match lookupA c.targetId s.visibilityCache with
    | some was =>
      if was = entryShouldShow isCheckboxType values c then s
      else processTarget s c.targetId (entryShouldShow isCheckboxType values c)
    | none => processTarget s c.targetId (entryShouldShow isCheckboxType values c)

/-- `ConditionEvaluator.evaluate(fieldName, fieldType)`: look up the
parent's entries (absent parents are a no-op), read the parent's checked
values once, and run the per-entry loop. -/
def evaluate (s : FormSt) (fieldName : String) (isCheckboxType : Bool) : FormSt :=
  match lookupA fieldName s.conditionMap with
  | none => s
  | some conds =>
    conds.foldl (evalCondStep isCheckboxType (checkedValuesOf s fieldName)) s

/-- `_reevaluateForTarget`'s scan: the first parent, in declaration order,
with an entry for this target. -/
def findParentOf (cm : List (String × List Cond)) (targetId : String) : Option String :=
  match cm with
  | [] => none
  | (p, conds) :: rest =>
    if conds.any (fun c => c.targetId == targetId) then some p
    else findParentOf rest targetId

/-- `ConditionEvaluator._reevaluateForTarget(targetId)`: re-evaluate the
governing parent, field type read from the DOM. -/
def reevaluateForTarget (s : FormSt) (targetId : String) : FormSt :=
  match findParentOf s.conditionMap targetId with
  | none => s
  | some p => evaluate s p (fieldTypeIsCheckbox s p)

/-- `ConditionEvaluator.toggleManual(targetId)`: absent targets are a
no-op; an overridden target has its override and cached visibility dropped
and its governing parent re-evaluated; otherwise the target is marked
overridden and force-shown. -/
def toggleManual (s : FormSt) (targetId : String) : FormSt :=
  match lookupA targetId s.elements with
  | none => s
  | some t =>
    if targetId ∈ s.manualOverrides then
      let s1 := { s with manualOverrides := removeKey targetId s.manualOverrides,
                         visibilityCache := removeA targetId s.visibilityCache }
      reevaluateForTarget s1 targetId
    else
      { s with manualOverrides := addKey targetId s.manualOverrides,
               elements := setA targetId { t with shown := true } s.elements }

/-- One iteration of the `openBranchesForParent` loop: a target that
exists, is conditional and is still hidden gets overridden and shown. -/
def openBranchStep (acc : FormSt × Bool) (c : Cond) : FormSt × Bool :=
  match lookupA c.targetId acc.1.elements with
  | none => acc
  | some t =>
    if !t.conditional then acc
    else if t.shown then acc
    else
      ({ acc.1 with
          manualOverrides := addKey c.targetId acc.1.manualOverrides,
          elements := setA c.targetId { t with shown := true } acc.1.elements },
        true)

/-- `ConditionEvaluator.openBranchesForParent(parentId)`: mark every still
hidden conditional target of the parent overridden and shown; returns
whether any branch was opened. -/
def openBranchesForParent (s : FormSt) (parentId : String) : FormSt × Bool :=
  match lookupA parentId s.conditionMap with
  | none => (s, false)
  | some conds =>
    if conds.isEmpty then (s, false)
    else conds.foldl openBranchStep (s, false)

/-- One iteration of the `closeBranchesForParent` loop: drop the override
and cached visibility of an overridden target. -/
def closeBranchStep (acc : FormSt × Bool) (c : Cond) : FormSt × Bool :=
  if c.targetId ∈ acc.1.manualOverrides then
    ({ acc.1 with
        manualOverrides := removeKey c.targetId acc.1.manualOverrides,
        visibilityCache := removeA c.targetId acc.1.visibilityCache },
      true)
  else acc

/-- `ConditionEvaluator.closeBranchesForParent(parentId)`: drop the
override and cached visibility of every overridden target of the parent,
then re-evaluate the parent if anything was dropped. -/
def closeBranchesForParent (s : FormSt) (parentId : String) : FormSt × Bool :=
  match lookupA parentId s.conditionMap with
  | none => (s, false)
  | some conds =>
    if conds.isEmpty then (s, false)
    else
      let step := conds.foldl closeBranchStep (s, false)
      if step.2 then (evaluate step.1 parentId (fieldTypeIsCheckbox step.1 parentId), true)
      else (s, false)

/-- One per-entry iteration of the first `setShowAll` loop: an existing
target is force-shown under show-all, otherwise its cached visibility is
dropped. -/
def showAllTargetStep (showAll : Bool) (st : FormSt) (c : Cond) : FormSt :=
  match lookupA c.targetId st.elements with
  | none => st
  | some t =>
    if showAll then
      { st with elements := setA c.targetId { t with shown := true } st.elements }
    else { st with visibilityCache := removeA c.targetId st.visibilityCache }

/-- One parent of the re-evaluation loop of `setShowAll(false)`: evaluate
it with the field type read from the DOM. -/
def reevalParentStep (st : FormSt) (pc : String × List Cond) : FormSt :=
  evaluate st pc.1 (fieldTypeIsCheckbox st pc.1)

/-- First half of `setShowAll`: set the flag and walk every condition
entry with `showAllTargetStep`. -/
def showAllPhase1 (s : FormSt) (showAll : Bool) : FormSt :=
  ({ s with showAll := showAll }).conditionMap.foldl
    (fun st (pc : String × List Cond) => pc.2.foldl (showAllTargetStep showAll) st)
    { s with showAll := showAll }

/-- `ConditionEvaluator.setShowAll(showAll)`: set the flag, walk every
entry — under show-all every existing target is force-shown, otherwise its
cached visibility is dropped; when turning show-all off, additionally clear
every manual override and re-evaluate every parent (field type read from
the DOM). The cross-parent loop reads answers as they evolve under
cascaded clearing; that is modelled fully by `setShowAllDom` below, of
which this is the answers-static restriction. -/
def setShowAll (s : FormSt) (showAll : Bool) : FormSt :=
  let s1 := showAllPhase1 s showAll
  if showAll then s1
  else
    let s2 := { s1 with manualOverrides := [] }
    s2.conditionMap.foldl reevalParentStep s2

/-- The names of the answer fields `_clearInputs` unchecks when it clears
the subtree of element `tid`: the fields sitting directly in `tid`'s
subtree together with those of the modelled elements nested inside it. -/
def fieldsUnder (tid : String) (elements : List (String × Elem)) : List String :=
  match lookupA tid elements with
  | none => []
  | some t =>
    ((elements.filter (fun p => p.1 = tid ∨ p.1 ∈ t.nested)).map
      (fun p => p.2.ownFields)).flatten

/-- Unchecking `input[name=f]:checked` for every field `f` in `names`:
`_clearInputs` writes the very DOM nodes `getCheckedValues` reads, so the
field's checked values become empty. -/
def clearFieldsIn (names : List String) (fields : List (String × Field)) :
    List (String × Field) :=
  fields.map (fun p =>
    if p.1 ∈ names then (p.1, { p.2 with checkedValues := ([] : List Int) }) else p)

/-- The per-target write path of `_evaluateRadio` / `_evaluateCheckbox` in
the full DOM model: besides the cache/`show`-class/control writes of
`processTarget`, hiding a target unchecks the answer inputs inside the
cleared subtree, because answers alias the clearable inputs. `processTarget`
is its restriction to states where no modelled answer lies in a clearable
subtree (adequate for a single parent's loop, which snapshots the parent's
answer before iterating). -/
def processTargetDom (s : FormSt) (tid : String) (shouldShow : Bool) : FormSt :=
  match lookupA tid s.elements with
  | none => s
  | some t =>
    let cache := setA tid shouldShow s.visibilityCache
    let elements := setA tid { t with shown := shouldShow } s.elements
    let elements := if shouldShow then elements else clearUnder tid elements
    let fields := if shouldShow then s.fields
      else clearFieldsIn (fieldsUnder tid s.elements) s.fields
    { s with visibilityCache := cache, elements := elements, fields := fields }

/-- One loop iteration of `_evaluateRadio` / `_evaluateCheckbox` in the
full DOM model (skips as in `evalCondStep`, writes via `processTargetDom`). -/
def evalCondStepDom (isCheckboxType : Bool) (values : List Int) (s : FormSt)
    (c : Cond) : FormSt :=
  if s.showAll = true ∨ c.targetId ∈ s.manualOverrides then s
  else
    match lookupA c.targetId s.visibilityCache with
    | some was =>
      if was = entryShouldShow isCheckboxType values c then s
      else processTargetDom s c.targetId (entryShouldShow isCheckboxType values c)
    | none => processTargetDom s c.targetId (entryShouldShow isCheckboxType values c)

/-- `ConditionEvaluator.evaluate` in the full DOM model: the parent's
checked values are still read once, before the loop, as in the source. -/
def evaluateDom (s : FormSt) (fieldName : String) (isCheckboxType : Bool) : FormSt :=
  match lookupA fieldName s.conditionMap with
  | none => s
  | some conds =>
    conds.foldl (evalCondStepDom isCheckboxType (checkedValuesOf s fieldName)) s

/-- One parent of the re-evaluation loop of `setShowAll(false)` in the full
DOM model: each parent's answer and field type are read from the DOM as it
stands at that parent's turn — clearing done by earlier parents included. -/
def reevalParentStepDom (st : FormSt) (pc : String × List Cond) : FormSt :=
  evaluateDom st pc.1 (fieldTypeIsCheckbox st pc.1)

/-- `ConditionEvaluator.setShowAll(showAll)` in the full DOM model: the
first walk is `showAllPhase1` unchanged (it never clears inputs); turning
show-all off additionally clears every manual override and re-evaluates
every parent in declaration order through `reevalParentStepDom`. -/
def setShowAllDom (s : FormSt) (showAll : Bool) : FormSt :=
  let s1 := showAllPhase1 s showAll
  if showAll then s1
  else
    let s2 := { s1 with manualOverrides := [] }
    s2.conditionMap.foldl reevalParentStepDom s2

/-- No answer field of a condition parent sits inside any clearable
container: under this geometry cascaded clearing cannot change any
parent's answer mid-pass. It holds of flat condition tables and fails in
the nested pattern where a conditional question is itself a parent. -/
def NoParentUnderClear (cm : List (String × List Cond))
    (elements : List (String × Elem)) : Prop :=
  ∀ pr ∈ elements, ∀ f ∈ pr.2.ownFields, f ∉ cm.map Prod.fst

instance (cm : List (String × List Cond)) (elements : List (String × Elem)) :
    Decidable (NoParentUnderClear cm elements) := by
  unfold NoParentUnderClear
  infer_instance

/-- Simulation relation between a full-DOM run and a base run: equal on
the condition table, elements, cache, overrides and the show-all flag, and
the answer fields agree on every condition parent. -/
def AgreeCore (cm : List (String × List Cond)) (a b : FormSt) : Prop :=
  a.conditionMap = cm ∧ b.conditionMap = cm ∧
  a.elements = b.elements ∧ a.visibilityCache = b.visibilityCache ∧
  a.manualOverrides = b.manualOverrides ∧ a.showAll = b.showAll ∧
  ∀ p, p ∈ cm.map Prod.fst → lookupA p a.fields = lookupA p b.fields

/-- All target ids of the condition table, in declaration order. -/
def allTargets (cm : List (String × List Cond)) : List String :=
  (cm.map (fun pc => pc.2.map Cond.targetId)).flatten

/-- `ConditionEvaluator.isConditionMet(targetId)`: scan every entry for
this target across all parents; met when some entry's parent answer
satisfies it — checkbox parents by intersection with the checked values,
radio parents by the first checked value. -/
def isConditionMet (s : FormSt) (targetId : String) : Bool :=
  s.conditionMap.any (fun pc =>
    pc.2.any (fun c =>
      c.targetId == targetId &&
        (if fieldTypeIsCheckbox s pc.1 then
          (checkedValuesOf s pc.1).any (fun v => c.showValues.contains v)
        else
          match (checkedValuesOf s pc.1).head? with
          | some v => c.showValues.contains v
          | none => false)))

/-- `ConditionEvaluator.getForcedOverrideIds()`: the overridden targets
whose real condition is not met, in override insertion order. -/
def getForcedOverrideIds (s : FormSt) : List String :=
  s.manualOverrides.filter (fun tid => !isConditionMet s tid)

/-- `FormState.getCurrentQuestion()` resolved through the flattened list:
`questionList[questionIndex]`, null at the `-1` sentinel. -/
def currentName (s : FormSt) : Option String :=
  if s.questionIndex < 0 then none
  else s.questionList.get? s.questionIndex.toNat

/-- The current question element, if any. -/
def getCurrentQuestion (s : FormSt) : Option Elem :=
  match currentName s with
  | none => none
  | some nm => lookupA nm s.elements

/-- `(rowNames?.length || 1) - 1` for a present table config. -/
def rowsMax (rows : List String) : Nat :=
  (if rows.length = 0 then 1 else rows.length) - 1

/-- `FormState.getTableConfig()`: null unless the current question is of
table type and has a config entry under its name. -/
def getTableConfig (s : FormSt) : Option (List String) :=
  match currentName s, getCurrentQuestion s with
  | some nm, some e => if e.isTable then lookupA nm s.tableConfigs else none
  | _, _ => none

/-- `maxRow` as `Navigator.moveNext` computes it for the current question:
`(getTableConfig()?.rowNames?.length || 1) - 1`. -/
def maxRowCur (s : FormSt) : Nat :=
  match getTableConfig s with
  | none => 0
  | some rows => rowsMax rows

/-- `maxRow` as `Navigator.movePrev` computes it when landing on a table
question, by the question's name. -/
def maxRowOf (s : FormSt) (name : String) : Nat :=
  match lookupA name s.tableConfigs with
  | none => 0
  | some rows => rowsMax rows

/-- `FormState.setQuestionIndex(index, options)`: bound-checked; on
success sets the index and resets the table row (`options.tableRow ?? 0`
on a table question, else 0). -/
def setQuestionIndex (s : FormSt) (index : Int) (tableRow : Option Nat) : FormSt × Bool :=
  if index < -1 ∨ index ≥ (s.questionList.length : Int) then (s, false)
  else
    let s1 := { s with questionIndex := index }
    match getCurrentQuestion s1 with
    | some e =>
      if e.isTable then ({ s1 with tableRowIndex := tableRow.getD 0 }, true)
      else ({ s1 with tableRowIndex := 0 }, true)
    | none => ({ s1 with tableRowIndex := 0 }, true)

/-- `FormState.setTableRowIndex(index)`: requires a table config for the
current question and `0 <= index <= maxRow`. -/
def setTableRowIndex (s : FormSt) (index : Int) : FormSt × Bool :=
  match getTableConfig s with
  | none => (s, false)
  | some rows =>
    if index < 0 ∨ index > (rowsMax rows : Int) then (s, false)
    else ({ s with tableRowIndex := index.toNat }, true)

/-- `ConditionEvaluator.isVisible(questionEl)`: hidden when the element is
an unshown conditional, or when its nearest `.conditional` ancestor is
unshown. -/
def isVisibleElem (s : FormSt) (e : Elem) : Bool :=
  if e.conditional && !e.shown then false
  else
    match e.parentCond with
    | none => true
    | some pid =>
      match lookupA pid s.elements with
      | none => true
      | some p => p.shown

/-- Visibility of the question at a list index (`isVisible(null)` is
false, covering indices off the list). -/
def isVisibleAt (s : FormSt) (i : Nat) : Bool :=
  match s.questionList.get? i with
  | none => false
  | some nm =>
    match lookupA nm s.elements with
    | none => false
    | some e => isVisibleElem s e

/-- The forward scan of `Navigator.moveNext`: the first index at or after
`i` whose question is visible. -/
def findNextVisible (s : FormSt) (i : Nat) : Option Nat :=
  if h : i < s.questionList.length then
    if isVisibleAt s i then some i else findNextVisible s (i + 1)
  else none
termination_by s.questionList.length - i

/-- The backward scan of `Navigator.movePrev`, starting just below the
given bound. -/
def findPrevVisible (s : FormSt) : Nat → Option Nat
  | 0 => none
  | j + 1 => if isVisibleAt s j then some j else findPrevVisible s j

/-- `Navigator.moveNext()`: on a table question below the last row advance
the row; otherwise land on the next visible question (row reset to 0); if
none remains, leave the state alone and return false (the source emits the
`reachEnd` event there). -/
def moveNext (s : FormSt) : FormSt × Bool :=
  let rowStep :=
    match getCurrentQuestion s with
    | some e =>
      if e.isTable = true ∧ s.tableRowIndex < maxRowCur s then
        some (setTableRowIndex s ((s.tableRowIndex : Int) + 1))
      else none
    | none => none
  match rowStep with
  | some r => r
  | none =>
    match findNextVisible s (s.questionIndex + 1).toNat with
    | some j => setQuestionIndex s (j : Int) none
    | none => (s, false)

/-- `Navigator.movePrev()`: on a table question above row 0 step the row
back; otherwise land on the previous visible question — on its last row
when it is a table question — and fall back to the id-entry sentinel when
none exists. -/
def movePrev (s : FormSt) : FormSt × Bool :=
  let rowStep :=
    match getCurrentQuestion s with
    | some e =>
      if e.isTable = true ∧ 0 < s.tableRowIndex then
        some (setTableRowIndex s ((s.tableRowIndex : Int) - 1))
      else none
    | none => none
  match rowStep with
  | some r => r
  | none =>
    match findPrevVisible s s.questionIndex.toNat with
    | some j =>
      match s.questionList.get? j with
      | none => setQuestionIndex s (j : Int) none
      | some nm =>
        match lookupA nm s.elements with
        | none => setQuestionIndex s (j : Int) none
        | some e =>
          if e.isTable then setQuestionIndex s (j : Int) (some (maxRowOf s nm))
          else setQuestionIndex s (j : Int) none
    | none => setQuestionIndex s (-1) none

/-! Auxiliary predicates for the preservation lemmas below, and concrete
states used as counterexamples and witnesses. -/

/-- State components no evaluator operation modifies: the static config,
the answer fields, the question list and the navigation cursor. -/
def EvalStatic (s s' : FormSt) : Prop :=
  s'.conditionMap = s.conditionMap ∧ s'.tableConfigs = s.tableConfigs ∧
    s'.fields = s.fields ∧ s'.questionList = s.questionList ∧
    s'.questionIndex = s.questionIndex ∧ s'.tableRowIndex = s.tableRowIndex

/-- How an element at a key other than the processed target can evolve in
one per-entry step: unchanged, or with its inputs cleared by the subtree
clear of an enclosing target. -/
def ClearOnly (e e' : Elem) : Prop :=
  e' = e ∨ e' = { e with inputs := e.inputs.clear }

/-- `ClearOnly` lifted to optional lookup results. -/
def OptClearOnly : Option Elem → Option Elem → Prop
  | none, none => True
  | some e, some e' => ClearOnly e e'
  | _, _ => False

/-- How an element at any key can evolve in one per-entry step: inputs
unchanged or cleared, nested ids untouched. -/
def InputsOnly (e e' : Elem) : Prop :=
  (e'.inputs = e.inputs ∨ e'.inputs = e.inputs.clear) ∧ e'.nested = e.nested

/-- `InputsOnly` lifted to optional lookup results. -/
def OptInputsOnly : Option Elem → Option Elem → Prop
  | none, none => True
  | some e, some e' => InputsOnly e e'
  | _, _ => False

/-- An entry the per-entry loop can no longer change: skipped under
show-all or an override, cached at its current value, or without a DOM
element. -/
def Settled (isCb : Bool) (vs : List Int) (s : FormSt) (c : Cond) : Prop :=
  s.showAll = true ∨ c.targetId ∈ s.manualOverrides ∨
    lookupA c.targetId s.visibilityCache = some (entryShouldShow isCb vs c) ∨
    lookupA c.targetId s.elements = none

/-- Inputs holding one checked choice input, for the small concrete
states. -/
def exInputs : Inputs :=
  { checked := [true], texts := ["x"], textareas := [], selects := [] }

/-- A conditional target question element, currently shown. -/
def exElemT : Elem :=
  { conditional := true, shown := true, inputs := exInputs,
    nested := [], isTable := false, parentCond := none }

/-- The single condition entry of the small concrete form: parent `P`
shows target `T` on answer value 1. -/
def exCond : Cond := { targetId := "T", showValues := [1], isSection := false }

/-- A minimal form: radio parent `P` with one conditional target question
`T` (trigger value 1), `T` currently visible with the cursor resting on
it, and the parent answer cleared so that the condition no longer holds. -/
def exState : FormSt :=
  { conditionMap := [("P", [exCond])]
    tableConfigs := []
    fields := [("P", { isCheckbox := false, checkedValues := [] })]
    elements := [("T", exElemT)]
    questionList := ["T"]
    visibilityCache := [("T", true)]
    manualOverrides := []
    showAll := false
    questionIndex := 0
    tableRowIndex := 0 }

/-- `exState` with `T` manually overridden (its condition is unmet). -/
def exC6 : FormSt :=
  { exState with manualOverrides := ["T"] }

/-- Inputs of an empty container. -/
def emptyInputs : Inputs :=
  { checked := [], texts := [], textareas := [], selects := [] }

/-- A plain, always visible question element. -/
def exElemQ1 : Elem :=
  { conditional := false, shown := false, inputs := emptyInputs,
    nested := [], isTable := false, parentCond := none }

/-- A conditional question element, currently hidden. -/
def exElemQ2 : Elem :=
  { conditional := true, shown := false, inputs := emptyInputs,
    nested := [], isTable := false, parentCond := none }

/-- A table (matrix) question element, always visible. -/
def exElemQ3 : Elem :=
  { conditional := false, shown := false, inputs := emptyInputs,
    nested := [], isTable := true, parentCond := none }

/-- A three-question form for the navigation claims: cursor on the plain
question `Q1`, a hidden conditional `Q2` between it and the two-row table
question `Q3`. -/
def exNav : FormSt :=
  { conditionMap := []
    tableConfigs := [("Q3", ["r1", "r2"])]
    fields := []
    elements := [("Q1", exElemQ1), ("Q2", exElemQ2), ("Q3", exElemQ3)]
    questionList := ["Q1", "Q2", "Q3"]
    visibilityCache := []
    manualOverrides := []
    showAll := false
    questionIndex := 0
    tableRowIndex := 0 }

/-- The same form in reverse order with the cursor on the last question,
for backward navigation into the table. -/
def exNavB : FormSt :=
  { exNav with questionList := ["Q3", "Q2", "Q1"], questionIndex := 2 }

/-- The conditional question `q_Q6_1_1` of the documented nested pattern:
its subtree holds the radio inputs of the answer field `Q6_1_1`, which is
itself a condition parent. -/
def exElemQ611 : Elem :=
  { conditional := true, shown := true,
    inputs := { checked := [true], texts := [], textareas := [], selects := [] },
    nested := [], isTable := false, parentCond := none,
    ownFields := ["Q6_1_1"] }

/-- The nested target `q_Q6_1_1_year`, currently shown. -/
def exElemYear : Elem :=
  { conditional := true, shown := true, inputs := emptyInputs,
    nested := [], isTable := false, parentCond := none }

/-- The nested-condition pattern in show-all mode, with the nested parent
`Q6_1_1` declared before the outer parent `Q6_1`: `Q6_1`'s answer `2` will
hide and clear `q_Q6_1_1` — erasing the already-consumed answer `1` of
`Q6_1_1` — after `Q6_1_1`'s own turn has shown `q_Q6_1_1_year`. -/
def exC9 : FormSt :=
  { conditionMap := [("Q6_1_1", [⟨"q_Q6_1_1_year", [1], false⟩]),
      ("Q6_1", [⟨"q_Q6_1_1", [1], false⟩])]
    tableConfigs := []
    fields := [("Q6_1", ⟨false, [2]⟩), ("Q6_1_1", ⟨false, [1]⟩)]
    elements := [("q_Q6_1_1", exElemQ611), ("q_Q6_1_1_year", exElemYear)]
    questionList := ["Q6_1", "Q6_1_1", "Q6_1_1_year"]
    visibilityCache := []
    manualOverrides := []
    showAll := true
    questionIndex := 0
    tableRowIndex := 0 }

end SurveyForm

open SurveyForm

/-- Claim C2: with a digit already buffered, the buffer is cleared and
`10*b + d` is committed immediately; with an empty buffer and
`1 <= d <= maxValue / 10`, `d` is buffered and a 500 ms timer is armed whose
expiry commits `d` alone; otherwise `d` is committed immediately. -/
theorem two_digit_input_spec (b d maxValue : Nat) :
    (handleTwoDigitInput (some b) d maxValue = (none, DigitOutcome.commit (10 * b + d))) ∧
    (1 ≤ d → d ≤ maxValue / 10 →
      handleTwoDigitInput none d maxValue = (some d, DigitOutcome.buffered d 500) ∧
      digitTimerFire (some d) = (none, some d)) ∧
    (¬ (1 ≤ d ∧ d ≤ maxValue / 10) →
      handleTwoDigitInput none d maxValue = (none, DigitOutcome.commit d)) := by
  refine ⟨rfl, ?_, ?_⟩
  · intro h1 h2
    constructor
    · simp [handleTwoDigitInput, h1, h2, DIGIT_WAIT_MS]
    · rfl
  · intro h
    simp only [handleTwoDigitInput, if_neg h]

/-- Witness for C2 on the documented 14-option example: buffered 1 then 2
commits 12; a lone 1 is buffered with the 500 ms timer; 5 commits at once. -/
theorem two_digit_input_spec_witness :
    handleTwoDigitInput (some 1) 2 14 = (none, DigitOutcome.commit 12) ∧
    (handleTwoDigitInput none 1 14 = (some 1, DigitOutcome.buffered 1 500) ∧
      digitTimerFire (some 1) = (none, some 1)) ∧
    handleTwoDigitInput none 5 14 = (none, DigitOutcome.commit 5) :=
  ⟨(two_digit_input_spec 1 2 14).1,
   (two_digit_input_spec 0 1 14).2.1 (by decide) (by decide),
   (two_digit_input_spec 0 5 14).2.2 (by decide)⟩

/-- Claim C7 counterexample: with the cursor at the id-entry sentinel
(`questionIndex = -1`) a digit press is silently ignored by the router —
it is not redirected to identifier entry and no inline message is shown
(the digit branch requires `questionIndex >= 0`), contradicting the claimed
redirect for the no-question-focused case. -/
theorem digit_press_no_question_ignored :
    routeDigitKey (-1) true 5 = KeyEffect.ignored ∧
    routeDigitKey (-1) false 5 = KeyEffect.ignored ∧
    KeyEffect.ignored ≠ KeyEffect.rejectToId "先にIDを入力してください" := by
  refine ⟨rfl, rfl, ?_⟩
  intro h
  exact KeyEffect.noConfusion h

/-- Claim C7 (amended): a digit press while a question is focused but the
identifier is empty is rejected with focus redirected to identifier entry
and an inline message, and no answer is recorded; a digit press while no
question is focused is ignored entirely (no answer, no redirect). -/
theorem digit_press_guard (qi : Int) (valid : Bool) (d : Nat) :
    (0 ≤ qi → valid = false →
      routeDigitKey qi valid d = KeyEffect.rejectToId "先にIDを入力してください") ∧
    (qi < 0 → routeDigitKey qi valid d = KeyEffect.ignored) := by
  constructor
  · intro hq hv
    simp [routeDigitKey, hq, hv]
  · intro hq
    have : ¬ 0 ≤ qi := by omega
    simp [routeDigitKey, this]

/-- Witness for the amended C7 at concrete inputs. -/
theorem digit_press_guard_witness :
    routeDigitKey 3 false 7 = KeyEffect.rejectToId "先にIDを入力してください" ∧
    routeDigitKey (-1) true 7 = KeyEffect.ignored :=
  ⟨(digit_press_guard 3 false 7).1 (by decide) rfl,
   (digit_press_guard (-1) true 7).2 (by decide)⟩

/-- Claim C10 counterexample: on a scale question with a 0-valued option
(scale 0..10, all unchecked), committing the number 0 — which the claim
calls out of range since 0 < 1 — is not a no-op: `_selectScaleValue` only
rejects `value < 0` or `value > scaleMax`, so it checks the 0 option. -/
theorem scale_zero_commit_not_noop :
    selectScaleValue 10 scaleInputs0to10 0 ≠ scaleInputs0to10 := by
  decide

/-- Claim C10 (amended): out-of-range commits are no-ops with the guard each
commit path actually uses: option selection rejects `num < 1` or
`num > count`; a table-row commit rejects `num` outside `1..count`; a scale
commit rejects `value < 0` or `value > scaleMax` (so 0 is a committable
scale value, not a no-op, when a 0-valued option exists). In every commit
the digit buffer has already been emptied, and all paths are total. -/
theorem out_of_range_commit_noop (inputs radios : List OptInput)
    (scaleMax n : Int) (dbuf : Option Nat) (d maxV m : Nat) :
    (n < 1 ∨ n > inputs.length → selectOptionCached inputs n = inputs) ∧
    (¬ (1 ≤ n ∧ n ≤ radios.length) → tableDigitCommit radios n = radios) ∧
    (n < 0 ∨ n > scaleMax → selectScaleValue scaleMax inputs n = inputs) ∧
    ((handleTwoDigitInput dbuf d maxV).2 = DigitOutcome.commit m →
      (handleTwoDigitInput dbuf d maxV).1 = none) := by
  refine ⟨?_, ?_, ?_, ?_⟩
  · intro h
    simp [selectOptionCached, h]
  · intro h
    simp [tableDigitCommit, h]
  · intro h
    simp [selectScaleValue, h]
  · intro h
    unfold handleTwoDigitInput at h ⊢
    cases dbuf with
    | some b => rfl
    | none =>
      by_cases hc : 1 ≤ d ∧ d ≤ maxV / 10
      · simp [hc] at h
      · simp [hc]

/-- Witness for the amended C10 at concrete inputs. -/
theorem out_of_range_commit_noop_witness :
    selectOptionCached scaleInputs0to10 0 = scaleInputs0to10 ∧
    tableDigitCommit scaleInputs0to10 12 = scaleInputs0to10 ∧
    selectScaleValue 10 scaleInputs0to10 11 = scaleInputs0to10 ∧
    (handleTwoDigitInput none 7 5).1 = none :=
  ⟨(out_of_range_commit_noop scaleInputs0to10 scaleInputs0to10 10 0 none 7 5 7).1
      (by decide),
   (out_of_range_commit_noop scaleInputs0to10 scaleInputs0to10 10 12 none 7 5 7).2.1
      (by decide),
   (out_of_range_commit_noop scaleInputs0to10 scaleInputs0to10 10 11 none 7 5 7).2.2.1
      (by decide),
   (out_of_range_commit_noop scaleInputs0to10 scaleInputs0to10 10 11 none 7 5 7).2.2.2
      (by decide)⟩

/-! Association-list and input-clearing groundwork. -/

theorem lookupA_setA_self {β : Type} (k : String) (v : β) (l : List (String × β)) :
    lookupA k (setA k v l) = some v := by
  induction l with
  | nil => simp [setA, lookupA]
  | cons hd tl ih =>
    obtain ⟨k1, v1⟩ := hd
    by_cases h : k1 = k
    · simp [setA, h, lookupA]
    · simp [setA, h, lookupA, ih]

theorem lookupA_setA_ne {β : Type} (k k2 : String) (v : β) (l : List (String × β))
    (h : k2 ≠ k) : lookupA k2 (setA k v l) = lookupA k2 l := by
  induction l with
  | nil => simp [setA, lookupA, Ne.symm h]
  | cons hd tl ih =>
    obtain ⟨k1, v1⟩ := hd
    by_cases h1 : k1 = k
    · subst h1
      simp [setA, lookupA, Ne.symm h]
    · simp only [setA, if_neg h1, lookupA]
      by_cases h2 : k1 = k2 <;> simp [h2, ih]

theorem lookupA_removeA_self {β : Type} (k : String) (l : List (String × β)) :
    lookupA k (removeA k l) = none := by
  induction l with
  | nil => simp [removeA, lookupA]
  | cons hd tl ih =>
    obtain ⟨k1, v1⟩ := hd
    by_cases h : k1 = k
    · simp [removeA, h, ih]
    · simp [removeA, h, lookupA, ih]

theorem lookupA_removeA_ne {β : Type} (k k2 : String) (l : List (String × β))
    (h : k2 ≠ k) : lookupA k2 (removeA k l) = lookupA k2 l := by
  induction l with
  | nil => simp [removeA]
  | cons hd tl ih =>
    obtain ⟨k1, v1⟩ := hd
    by_cases h1 : k1 = k
    · subst h1
      simp [removeA, lookupA, Ne.symm h, ih]
    · simp only [removeA, if_neg h1, lookupA]
      by_cases h2 : k1 = k2 <;> simp [h2, ih]

theorem lookupA_mapVal {β : Type} (h : String → β → β) (l : List (String × β))
    (k : String) :
    lookupA k (l.map (fun p => (p.1, h p.1 p.2))) = (lookupA k l).map (h k) := by
  induction l with
  | nil => simp [lookupA]
  | cons hd tl ih =>
    obtain ⟨k1, v1⟩ := hd
    by_cases h1 : k1 = k
    · subst h1
      simp [lookupA]
    · simp [lookupA, h1, ih]

theorem mem_addKey_self (k : String) (l : List String) : k ∈ addKey k l := by
  by_cases h : k ∈ l <;> simp [addKey, h]

theorem mem_addKey_iff (k k2 : String) (l : List String) (h : k2 ≠ k) :
    k2 ∈ addKey k l ↔ k2 ∈ l := by
  by_cases hm : k ∈ l <;> simp [addKey, hm, h]

theorem mem_removeKey_iff (k k2 : String) (l : List String) :
    k2 ∈ removeKey k l ↔ k2 ∈ l ∧ k2 ≠ k := by
  simp [removeKey, List.mem_filter]

theorem Inputs.clear_clear (i : Inputs) : i.clear.clear = i.clear := by
  simp [Inputs.clear, List.map_map, Function.comp]

theorem Inputs.clearedb_clear (i : Inputs) : i.clear.clearedb = true := by
  simp [Inputs.clear, Inputs.clearedb, List.all_map, Function.comp, List.all_eq_true]

theorem clearOnly_refl (e : Elem) : ClearOnly e e := Or.inl rfl

theorem clearOnly_trans {a b c : Elem} (h1 : ClearOnly a b) (h2 : ClearOnly b c) :
    ClearOnly a c := by
  rcases h1 with h1 | h1 <;> rcases h2 with h2 | h2 <;> subst h1 <;> subst h2
  · exact Or.inl rfl
  · exact Or.inr rfl
  · exact Or.inr rfl
  · right
    simp [Inputs.clear_clear]

theorem ClearOnly.shown_eq {a b : Elem} (h : ClearOnly a b) : b.shown = a.shown := by
  rcases h with h | h <;> subst h <;> rfl

theorem ClearOnly.nested_eq {a b : Elem} (h : ClearOnly a b) : b.nested = a.nested := by
  rcases h with h | h <;> subst h <;> rfl

theorem ClearOnly.conditional_eq {a b : Elem} (h : ClearOnly a b) :
    b.conditional = a.conditional := by
  rcases h with h | h <;> subst h <;> rfl

theorem clearOnly_clearedb {a b : Elem} (h : ClearOnly a b)
    (ha : a.inputs.clearedb = true) : b.inputs.clearedb = true := by
  rcases h with h | h <;> subst h
  · exact ha
  · exact Inputs.clearedb_clear a.inputs

theorem optClearOnly_refl (o : Option Elem) : OptClearOnly o o := by
  cases o with
  | none => trivial
  | some e => exact clearOnly_refl e

theorem optClearOnly_trans {a b c : Option Elem} (h1 : OptClearOnly a b)
    (h2 : OptClearOnly b c) : OptClearOnly a c := by
  cases a <;> cases b <;> cases c <;> simp_all [OptClearOnly]
  exact clearOnly_trans h1 h2

theorem inputsOnly_refl (e : Elem) : InputsOnly e e := ⟨Or.inl rfl, rfl⟩

theorem inputsOnly_trans {a b c : Elem} (h1 : InputsOnly a b) (h2 : InputsOnly b c) :
    InputsOnly a c := by
  obtain ⟨h1i, h1n⟩ := h1
  obtain ⟨h2i, h2n⟩ := h2
  refine ⟨?_, h2n.trans h1n⟩
  rcases h1i with h1i | h1i <;> rcases h2i with h2i | h2i <;>
    simp [h2i, h1i, Inputs.clear_clear]

theorem inputsOnly_clearedb {a b : Elem} (h : InputsOnly a b)
    (ha : a.inputs.clearedb = true) : b.inputs.clearedb = true := by
  rcases h.1 with hi | hi <;> rw [hi]
  · exact ha
  · exact Inputs.clearedb_clear a.inputs

theorem optInputsOnly_refl (o : Option Elem) : OptInputsOnly o o := by
  cases o with
  | none => trivial
  | some e => exact inputsOnly_refl e

theorem optInputsOnly_trans {a b c : Option Elem} (h1 : OptInputsOnly a b)
    (h2 : OptInputsOnly b c) : OptInputsOnly a c := by
  cases a <;> cases b <;> cases c <;> simp_all [OptInputsOnly]
  exact inputsOnly_trans h1 h2

theorem ClearOnly.inputsOnly {a b : Elem} (h : ClearOnly a b) : InputsOnly a b := by
  rcases h with h | h
  · rw [h]
    exact inputsOnly_refl a
  · rw [h]
    exact ⟨Or.inr rfl, rfl⟩

theorem OptClearOnly.optInputsOnly {a b : Option Elem} (h : OptClearOnly a b) :
    OptInputsOnly a b := by
  cases a <;> cases b <;> simp_all [OptClearOnly, OptInputsOnly]
  exact ClearOnly.inputsOnly h

theorem evalStatic_refl (s : FormSt) : EvalStatic s s := ⟨rfl, rfl, rfl, rfl, rfl, rfl⟩

theorem evalStatic_trans {a b c : FormSt} (h1 : EvalStatic a b) (h2 : EvalStatic b c) :
    EvalStatic a c := by
  obtain ⟨x1, x2, x3, x4, x5, x6⟩ := h1
  obtain ⟨y1, y2, y3, y4, y5, y6⟩ := h2
  exact ⟨y1.trans x1, y2.trans x2, y3.trans x3, y4.trans x4, y5.trans x5, y6.trans x6⟩

/-! Behaviour of the per-entry evaluator step. -/

theorem lookupA_map_clear (tid k : String) (t : Elem) (els : List (String × Elem)) :
    lookupA k (els.map (fun p =>
        (p.1, if p.1 = tid ∨ p.1 ∈ t.nested then { p.2 with inputs := p.2.inputs.clear }
          else p.2))) =
      (lookupA k els).map (fun e =>
        if k = tid ∨ k ∈ t.nested then { e with inputs := e.inputs.clear } else e) := by
  induction els with
  | nil => rfl
  | cons hd tl ih =>
    obtain ⟨k1, v1⟩ := hd
    by_cases h1 : k1 = k
    · subst h1
      simp [lookupA]
    · simp [lookupA, h1, ih]

theorem lookupA_clearUnder (tid k : String) (els : List (String × Elem)) :
    lookupA k (clearUnder tid els) =
      match lookupA tid els with
      | none => lookupA k els
      | some t =>
        (lookupA k els).map (fun e =>
          if k = tid ∨ k ∈ t.nested then { e with inputs := e.inputs.clear } else e) := by
  cases h : lookupA tid els with
  | none => simp [clearUnder, h]
  | some t =>
    simp only [clearUnder, h]
    exact lookupA_map_clear tid k t els

theorem processTarget_none (s : FormSt) (tid : String) (b : Bool)
    (h : lookupA tid s.elements = none) : processTarget s tid b = s := by
  simp [processTarget, h]

theorem processTarget_static (s : FormSt) (tid : String) (b : Bool) :
    EvalStatic s (processTarget s tid b) := by
  unfold processTarget
  cases lookupA tid s.elements with
  | none => exact evalStatic_refl s
  | some t => exact ⟨rfl, rfl, rfl, rfl, rfl, rfl⟩

theorem processTarget_ov_sa (s : FormSt) (tid : String) (b : Bool) :
    (processTarget s tid b).manualOverrides = s.manualOverrides ∧
      (processTarget s tid b).showAll = s.showAll := by
  unfold processTarget
  cases lookupA tid s.elements with
  | none => exact ⟨rfl, rfl⟩
  | some t => exact ⟨rfl, rfl⟩

theorem processTarget_cache_self (s : FormSt) (tid : String) (b : Bool) (t : Elem)
    (ht : lookupA tid s.elements = some t) :
    lookupA tid (processTarget s tid b).visibilityCache = some b := by
  simp [processTarget, ht, lookupA_setA_self]

theorem processTarget_cache_ne (s : FormSt) (tid : String) (b : Bool) (k : String)
    (hk : k ≠ tid) :
    lookupA k (processTarget s tid b).visibilityCache = lookupA k s.visibilityCache := by
  unfold processTarget
  cases ht : lookupA tid s.elements with
  | none => rfl
  | some t => simp [lookupA_setA_ne _ _ _ _ hk]

theorem processTarget_elem_self (s : FormSt) (tid : String) (b : Bool) (t : Elem)
    (ht : lookupA tid s.elements = some t) :
    lookupA tid (processTarget s tid b).elements =
      some { t with shown := b, inputs := if b then t.inputs else t.inputs.clear } := by
  cases b with
  | true => simp [processTarget, ht, lookupA_setA_self]
  | false =>
    simp only [processTarget, ht]
    rw [if_neg (by simp)]
    rw [lookupA_clearUnder, lookupA_setA_self]
    simp

theorem processTarget_elem_ne (s : FormSt) (tid : String) (b : Bool) (k : String)
    (hk : k ≠ tid) :
    OptClearOnly (lookupA k s.elements) (lookupA k (processTarget s tid b).elements) := by
  cases ht : lookupA tid s.elements with
  | none =>
    rw [processTarget_none s tid b ht]
    exact optClearOnly_refl _
  | some t =>
    cases b with
    | true =>
      simp only [processTarget, ht]
      rw [if_pos trivial]
      simp only [lookupA_setA_ne _ _ _ _ hk]
      exact optClearOnly_refl _
    | false =>
      simp only [processTarget, ht]
      rw [if_neg (by simp)]
      simp only [lookupA_clearUnder, lookupA_setA_self, lookupA_setA_ne _ _ _ _ hk]
      cases hke : lookupA k s.elements with
      | none => trivial
      | some e =>
        simp only [Option.map_some']
        by_cases hc : k = tid ∨ k ∈ Elem.nested { t with shown := false }
        · rw [if_pos hc]
          exact Or.inr rfl
        · rw [if_neg hc]
          exact Or.inl rfl

theorem processTarget_elem_ne_untouched (s : FormSt) (tid : String) (b : Bool)
    (k : String) (hk : k ≠ tid)
    (hn : ∀ t, lookupA tid s.elements = some t → k ∉ t.nested) :
    lookupA k (processTarget s tid b).elements = lookupA k s.elements := by
  cases ht : lookupA tid s.elements with
  | none => rw [processTarget_none s tid b ht]
  | some t =>
    cases b with
    | true =>
      simp only [processTarget, ht]
      rw [if_pos trivial]
      simp only [lookupA_setA_ne _ _ _ _ hk]
    | false =>
      have hnot : ¬ (k = tid ∨ k ∈ Elem.nested { t with shown := false }) := by
        push_neg
        exact ⟨hk, hn t ht⟩
      simp only [processTarget, ht]
      rw [if_neg (by simp)]
      simp only [lookupA_clearUnder, lookupA_setA_self, lookupA_setA_ne _ _ _ _ hk]
      cases hke : lookupA k s.elements with
      | none => rfl
      | some e => simp [hnot]

theorem processTarget_clears (s : FormSt) (tid : String) (t : Elem) (nid : String)
    (ht : lookupA tid s.elements = some t) (hn : nid = tid ∨ nid ∈ t.nested) :
    ∀ e', lookupA nid (processTarget s tid false).elements = some e' →
      e'.inputs.clearedb = true := by
  intro e' he'
  by_cases hk : nid = tid
  · subst hk
    rw [processTarget_elem_self s nid false t ht] at he'
    cases he'
    simp [Inputs.clearedb_clear]
  · have hn2 : nid ∈ t.nested := hn.resolve_left hk
    rw [show processTarget s tid false =
        { s with visibilityCache := setA tid false s.visibilityCache,
                 elements := clearUnder tid (setA tid { t with shown := false } s.elements) }
      from by simp [processTarget, ht]] at he'
    simp only [lookupA_clearUnder, lookupA_setA_self, lookupA_setA_ne _ _ _ _ hk] at he'
    cases hke : lookupA nid s.elements with
    | none => simp [hke] at he'
    | some e =>
      rw [hke] at he'
      simp only [Option.map_some', hn2, or_true, if_true, Option.some_inj] at he'
      rw [← he']
      exact Inputs.clearedb_clear e.inputs

theorem processTarget_elem_evolve (s : FormSt) (tid : String) (b : Bool) (k : String) :
    OptInputsOnly (lookupA k s.elements) (lookupA k (processTarget s tid b).elements) := by
  by_cases hk : k = tid
  · subst hk
    cases ht : lookupA k s.elements with
    | none =>
      rw [processTarget_none s k b ht]
      rw [ht]
      trivial
    | some t =>
      rw [processTarget_elem_self s k b t ht]
      cases b <;> simp [OptInputsOnly, InputsOnly]
  · exact OptClearOnly.optInputsOnly (processTarget_elem_ne s tid b k hk)

/-! The per-entry loop of evaluate. -/

theorem evalCondStep_cases (isCb : Bool) (vs : List Int) (s : FormSt) (c : Cond) :
    evalCondStep isCb vs s c = s ∨
      evalCondStep isCb vs s c = processTarget s c.targetId (entryShouldShow isCb vs c) := by
  unfold evalCondStep
  by_cases h : s.showAll = true ∨ c.targetId ∈ s.manualOverrides
  · rw [if_pos h]
    exact Or.inl rfl
  · rw [if_neg h]
    split
    · split
      · exact Or.inl rfl
      · exact Or.inr rfl
    · exact Or.inr rfl

theorem evalCondStep_static (isCb : Bool) (vs : List Int) (s : FormSt) (c : Cond) :
    EvalStatic s (evalCondStep isCb vs s c) := by
  rcases evalCondStep_cases isCb vs s c with h | h <;> rw [h]
  · exact evalStatic_refl s
  · exact processTarget_static s c.targetId _

theorem evalCondStep_ov_sa (isCb : Bool) (vs : List Int) (s : FormSt) (c : Cond) :
    (evalCondStep isCb vs s c).manualOverrides = s.manualOverrides ∧
      (evalCondStep isCb vs s c).showAll = s.showAll := by
  rcases evalCondStep_cases isCb vs s c with h | h <;> rw [h]
  · exact ⟨rfl, rfl⟩
  · exact processTarget_ov_sa s c.targetId _

theorem evalCondStep_cache_ne (isCb : Bool) (vs : List Int) (s : FormSt) (c : Cond)
    (k : String) (hk : k ≠ c.targetId) :
    lookupA k (evalCondStep isCb vs s c).visibilityCache =
      lookupA k s.visibilityCache := by
  rcases evalCondStep_cases isCb vs s c with h | h <;> rw [h]
  exact processTarget_cache_ne s c.targetId _ k hk

theorem evalCondStep_elem_ne (isCb : Bool) (vs : List Int) (s : FormSt) (c : Cond)
    (k : String) (hk : k ≠ c.targetId) :
    OptClearOnly (lookupA k s.elements)
      (lookupA k (evalCondStep isCb vs s c).elements) := by
  rcases evalCondStep_cases isCb vs s c with h | h <;> rw [h]
  · exact optClearOnly_refl _
  · exact processTarget_elem_ne s c.targetId _ k hk

theorem evalCondStep_elem_evolve (isCb : Bool) (vs : List Int) (s : FormSt) (c : Cond)
    (k : String) :
    OptInputsOnly (lookupA k s.elements)
      (lookupA k (evalCondStep isCb vs s c).elements) := by
  rcases evalCondStep_cases isCb vs s c with h | h <;> rw [h]
  · exact optInputsOnly_refl _
  · exact processTarget_elem_evolve s c.targetId _ k

theorem evalCondStep_elem_ne_untouched (isCb : Bool) (vs : List Int) (s : FormSt)
    (c : Cond) (k : String) (hk : k ≠ c.targetId)
    (hn : ∀ t, lookupA c.targetId s.elements = some t → k ∉ t.nested) :
    lookupA k (evalCondStep isCb vs s c).elements = lookupA k s.elements := by
  rcases evalCondStep_cases isCb vs s c with h | h <;> rw [h]
  exact processTarget_elem_ne_untouched s c.targetId _ k hk hn

theorem foldl_static (isCb : Bool) (vs : List Int) (conds : List Cond) :
    ∀ s : FormSt, EvalStatic s (conds.foldl (evalCondStep isCb vs) s) := by
  induction conds with
  | nil => exact fun s => evalStatic_refl s
  | cons c0 cs ih =>
    intro s
    rw [List.foldl_cons]
    exact evalStatic_trans (evalCondStep_static isCb vs s c0) (ih _)

theorem foldl_ov_sa (isCb : Bool) (vs : List Int) (conds : List Cond) :
    ∀ s : FormSt,
      (conds.foldl (evalCondStep isCb vs) s).manualOverrides = s.manualOverrides ∧
        (conds.foldl (evalCondStep isCb vs) s).showAll = s.showAll := by
  induction conds with
  | nil => exact fun s => ⟨rfl, rfl⟩
  | cons c0 cs ih =>
    intro s
    rw [List.foldl_cons]
    obtain ⟨h1, h2⟩ := evalCondStep_ov_sa isCb vs s c0
    obtain ⟨h3, h4⟩ := ih (evalCondStep isCb vs s c0)
    exact ⟨h3.trans h1, h4.trans h2⟩

theorem foldl_preserveAt (isCb : Bool) (vs : List Int) (conds : List Cond) :
    ∀ (s : FormSt) (tid : String), tid ∉ conds.map Cond.targetId →
      lookupA tid (conds.foldl (evalCondStep isCb vs) s).visibilityCache =
          lookupA tid s.visibilityCache ∧
        OptClearOnly (lookupA tid s.elements)
          (lookupA tid (conds.foldl (evalCondStep isCb vs) s).elements) := by
  induction conds with
  | nil => exact fun s tid _ => ⟨rfl, optClearOnly_refl _⟩
  | cons c0 cs ih =>
    intro s tid hmem
    rw [List.map_cons, List.mem_cons] at hmem
    push_neg at hmem
    rw [List.foldl_cons]
    obtain ⟨ih1, ih2⟩ := ih (evalCondStep isCb vs s c0) tid hmem.2
    refine ⟨ih1.trans (evalCondStep_cache_ne isCb vs s c0 tid hmem.1), ?_⟩
    exact optClearOnly_trans (evalCondStep_elem_ne isCb vs s c0 tid hmem.1) ih2

theorem foldl_elem_evolve (isCb : Bool) (vs : List Int) (conds : List Cond) :
    ∀ (s : FormSt) (k : String),
      OptInputsOnly (lookupA k s.elements)
        (lookupA k (conds.foldl (evalCondStep isCb vs) s).elements) := by
  induction conds with
  | nil => exact fun s k => optInputsOnly_refl _
  | cons c0 cs ih =>
    intro s k
    rw [List.foldl_cons]
    exact optInputsOnly_trans (evalCondStep_elem_evolve isCb vs s c0 k)
      (ih (evalCondStep isCb vs s c0) k)

theorem evalCondStep_establish (isCb : Bool) (vs : List Int) (s : FormSt) (c : Cond)
    (t : Elem) (hsa : s.showAll = false) (hov : c.targetId ∉ s.manualOverrides)
    (ht : lookupA c.targetId s.elements = some t)
    (hcons : ∀ was, lookupA c.targetId s.visibilityCache = some was → t.shown = was) :
    lookupA c.targetId (evalCondStep isCb vs s c).visibilityCache =
        some (entryShouldShow isCb vs c) ∧
      ∃ t1, lookupA c.targetId (evalCondStep isCb vs s c).elements = some t1 ∧
        t1.shown = entryShouldShow isCb vs c ∧ t1.nested = t.nested := by
  have hskip : ¬ (s.showAll = true ∨ c.targetId ∈ s.manualOverrides) := by
    simp [hsa, hov]
  unfold evalCondStep
  rw [if_neg hskip]
  split
  · rename_i was heq
    split
    · rename_i hw
      refine ⟨by rw [heq, hw], t, ht, ?_, rfl⟩
      rw [hcons was heq, hw]
    · exact ⟨processTarget_cache_self s c.targetId _ t ht,
        _, processTarget_elem_self s c.targetId _ t ht, rfl, rfl⟩
  · exact ⟨processTarget_cache_self s c.targetId _ t ht,
      _, processTarget_elem_self s c.targetId _ t ht, rfl, rfl⟩

theorem foldl_target_correct (isCb : Bool) (vs : List Int) (conds : List Cond) :
    ∀ (s : FormSt) (c : Cond) (t : Elem),
      c ∈ conds → (conds.map Cond.targetId).Nodup →
      s.showAll = false → c.targetId ∉ s.manualOverrides →
      lookupA c.targetId s.elements = some t →
      (∀ was, lookupA c.targetId s.visibilityCache = some was → t.shown = was) →
      lookupA c.targetId (conds.foldl (evalCondStep isCb vs) s).visibilityCache =
          some (entryShouldShow isCb vs c) ∧
        ∃ t', lookupA c.targetId (conds.foldl (evalCondStep isCb vs) s).elements =
            some t' ∧
          t'.shown = entryShouldShow isCb vs c ∧ t'.nested = t.nested := by
  induction conds with
  | nil =>
    intro s c t hc
    exact absurd hc (List.not_mem_nil c)
  | cons c0 cs ih =>
    intro s c t hc hnd hsa hov ht hcons
    rw [List.map_cons, List.nodup_cons] at hnd
    rw [List.foldl_cons]
    rcases List.mem_cons.mp hc with heq | hcs
    · subst heq
      obtain ⟨hc1, t1, he1, hs1, hn1⟩ :=
        evalCondStep_establish isCb vs s c t hsa hov ht hcons
      obtain ⟨hpc, hpe⟩ :=
        foldl_preserveAt isCb vs cs (evalCondStep isCb vs s c) c.targetId hnd.1
      refine ⟨by rw [hpc, hc1], ?_⟩
      rw [he1] at hpe
      cases hfin : lookupA c.targetId ((cs.foldl (evalCondStep isCb vs)
          (evalCondStep isCb vs s c))).elements with
      | none =>
        rw [hfin] at hpe
        exact absurd hpe (by simp [OptClearOnly])
      | some t2 =>
        rw [hfin] at hpe
        have hpe' : ClearOnly t1 t2 := hpe
        refine ⟨t2, rfl, ?_, ?_⟩
        · rw [ClearOnly.shown_eq hpe', hs1]
        · rw [ClearOnly.nested_eq hpe', hn1]
    · have hmem0 : c.targetId ∈ cs.map Cond.targetId :=
        List.mem_map_of_mem Cond.targetId hcs
      have hne : c.targetId ≠ c0.targetId := fun he => hnd.1 (he ▸ hmem0)
      have hostep := evalCondStep_ov_sa isCb vs s c0
      have hsa1 : (evalCondStep isCb vs s c0).showAll = false := by
        rw [hostep.2, hsa]
      have hov1 : c.targetId ∉ (evalCondStep isCb vs s c0).manualOverrides := by
        rw [hostep.1]
        exact hov
      have hel := evalCondStep_elem_ne isCb vs s c0 c.targetId hne
      rw [ht] at hel
      cases ht1 : lookupA c.targetId (evalCondStep isCb vs s c0).elements with
      | none =>
        rw [ht1] at hel
        exact absurd hel (by simp [OptClearOnly])
      | some t1 =>
        rw [ht1] at hel
        have hel' : ClearOnly t t1 := hel
        have hcacheq := evalCondStep_cache_ne isCb vs s c0 c.targetId hne
        have hcons1 : ∀ was,
            lookupA c.targetId (evalCondStep isCb vs s c0).visibilityCache = some was →
              t1.shown = was := by
          intro was hww
          rw [hcacheq] at hww
          rw [ClearOnly.shown_eq hel']
          exact hcons was hww
        obtain ⟨hA, t', hB, hC, hD⟩ :=
          ih (evalCondStep isCb vs s c0) c t1 hcs hnd.2 hsa1 hov1 ht1 hcons1
        exact ⟨hA, t', hB, hC, by rw [hD, ClearOnly.nested_eq hel']⟩

theorem entryShouldShow_eq_true_iff (isCb : Bool) (vs : List Int) (c : Cond) :
    entryShouldShow isCb vs c = true ↔
      (if isCb = true then ∃ v ∈ vs, v ∈ c.showValues
       else ∃ v, vs.head? = some v ∧ v ∈ c.showValues) := by
  cases isCb with
  | true => simp [entryShouldShow, checkboxShouldShow]
  | false =>
    simp only [entryShouldShow, Bool.false_eq_true, if_false, radioShouldShow]
    cases h : vs.head? <;> simp

/-! Evaluate-level preservation. -/

theorem evaluate_static (s : FormSt) (p : String) (isCb : Bool) :
    EvalStatic s (evaluate s p isCb) := by
  unfold evaluate
  cases lookupA p s.conditionMap with
  | none => exact evalStatic_refl s
  | some conds => exact foldl_static isCb (checkedValuesOf s p) conds s

theorem evaluate_ov_sa (s : FormSt) (p : String) (isCb : Bool) :
    (evaluate s p isCb).manualOverrides = s.manualOverrides ∧
      (evaluate s p isCb).showAll = s.showAll := by
  unfold evaluate
  cases lookupA p s.conditionMap with
  | none => exact ⟨rfl, rfl⟩
  | some conds => exact foldl_ov_sa isCb (checkedValuesOf s p) conds s

theorem evaluate_preserveAt (s : FormSt) (p : String) (isCb : Bool) (tid : String)
    (h : ∀ conds, lookupA p s.conditionMap = some conds →
      tid ∉ conds.map Cond.targetId) :
    lookupA tid (evaluate s p isCb).visibilityCache = lookupA tid s.visibilityCache ∧
      OptClearOnly (lookupA tid s.elements)
        (lookupA tid (evaluate s p isCb).elements) := by
  unfold evaluate
  cases hm : lookupA p s.conditionMap with
  | none => exact ⟨rfl, optClearOnly_refl _⟩
  | some conds => exact foldl_preserveAt isCb _ conds s tid (h conds hm)

theorem evaluate_elem_evolve (s : FormSt) (p : String) (isCb : Bool) (k : String) :
    OptInputsOnly (lookupA k s.elements) (lookupA k (evaluate s p isCb).elements) := by
  unfold evaluate
  cases lookupA p s.conditionMap with
  | none => exact optInputsOnly_refl _
  | some conds => exact foldl_elem_evolve isCb _ conds s k

theorem reevaluateForTarget_static (s : FormSt) (tid : String) :
    EvalStatic s (reevaluateForTarget s tid) := by
  unfold reevaluateForTarget
  cases findParentOf s.conditionMap tid with
  | none => exact evalStatic_refl s
  | some p => exact evaluate_static s p _

theorem toggleManual_static (s : FormSt) (tid : String) :
    EvalStatic s (toggleManual s tid) := by
  cases ht : lookupA tid s.elements with
  | none =>
    simp only [toggleManual, ht]
    exact evalStatic_refl s
  | some t =>
    simp only [toggleManual, ht]
    by_cases hm : tid ∈ s.manualOverrides
    · rw [if_pos hm]
      exact evalStatic_trans (⟨rfl, rfl, rfl, rfl, rfl, rfl⟩ : EvalStatic s _)
        (reevaluateForTarget_static _ tid)
    · rw [if_neg hm]
      exact ⟨rfl, rfl, rfl, rfl, rfl, rfl⟩

theorem openBranchStep_static (acc : FormSt × Bool) (c : Cond) :
    EvalStatic acc.1 (openBranchStep acc c).1 := by
  cases ht : lookupA c.targetId acc.1.elements with
  | none =>
    simp only [openBranchStep, ht]
    exact evalStatic_refl _
  | some t =>
    simp only [openBranchStep, ht]
    by_cases h1 : (!t.conditional) = true
    · rw [if_pos h1]
      exact evalStatic_refl _
    · rw [if_neg h1]
      by_cases h2 : t.shown = true
      · rw [if_pos h2]
        exact evalStatic_refl _
      · rw [if_neg h2]
        exact ⟨rfl, rfl, rfl, rfl, rfl, rfl⟩

theorem openBranches_fold_static (conds : List Cond) :
    ∀ acc : FormSt × Bool, EvalStatic acc.1 ((conds.foldl openBranchStep acc).1) := by
  induction conds with
  | nil => exact fun acc => evalStatic_refl _
  | cons c0 cs ih =>
    intro acc
    rw [List.foldl_cons]
    exact evalStatic_trans (openBranchStep_static acc c0) (ih (openBranchStep acc c0))

theorem openBranchesForParent_static (s : FormSt) (p : String) :
    EvalStatic s (openBranchesForParent s p).1 := by
  cases hm : lookupA p s.conditionMap with
  | none =>
    simp only [openBranchesForParent, hm]
    exact evalStatic_refl s
  | some conds =>
    simp only [openBranchesForParent, hm]
    by_cases he : conds.isEmpty = true
    · rw [if_pos he]
      exact evalStatic_refl s
    · rw [if_neg he]
      exact openBranches_fold_static conds (s, false)

theorem closeBranchStep_static (acc : FormSt × Bool) (c : Cond) :
    EvalStatic acc.1 (closeBranchStep acc c).1 := by
  unfold closeBranchStep
  by_cases hm : c.targetId ∈ acc.1.manualOverrides
  · rw [if_pos hm]
    exact ⟨rfl, rfl, rfl, rfl, rfl, rfl⟩
  · rw [if_neg hm]
    exact evalStatic_refl _

theorem closeBranches_fold_static (conds : List Cond) :
    ∀ acc : FormSt × Bool, EvalStatic acc.1 ((conds.foldl closeBranchStep acc).1) := by
  induction conds with
  | nil => exact fun acc => evalStatic_refl _
  | cons c0 cs ih =>
    intro acc
    rw [List.foldl_cons]
    exact evalStatic_trans (closeBranchStep_static acc c0) (ih (closeBranchStep acc c0))

theorem closeBranchesForParent_static (s : FormSt) (p : String) :
    EvalStatic s (closeBranchesForParent s p).1 := by
  cases hm : lookupA p s.conditionMap with
  | none =>
    simp only [closeBranchesForParent, hm]
    exact evalStatic_refl s
  | some conds =>
    simp only [closeBranchesForParent, hm]
    by_cases he : conds.isEmpty = true
    · rw [if_pos he]
      exact evalStatic_refl s
    · rw [if_neg he]
      by_cases hs : (conds.foldl closeBranchStep (s, false)).2 = true
      · rw [if_pos hs]
        exact evalStatic_trans (closeBranches_fold_static conds (s, false))
          (evaluate_static _ p _)
      · rw [if_neg hs]
        exact evalStatic_refl s

theorem showAllTargetStep_static (b : Bool) (st : FormSt) (c : Cond) :
    EvalStatic st (showAllTargetStep b st c) := by
  unfold showAllTargetStep
  cases lookupA c.targetId st.elements with
  | none => exact evalStatic_refl _
  | some t =>
    cases b with
    | true => exact ⟨rfl, rfl, rfl, rfl, rfl, rfl⟩
    | false => exact ⟨rfl, rfl, rfl, rfl, rfl, rfl⟩

theorem showAll_inner_fold_static (b : Bool) (conds : List Cond) :
    ∀ st : FormSt, EvalStatic st (conds.foldl (showAllTargetStep b) st) := by
  induction conds with
  | nil => exact fun st => evalStatic_refl st
  | cons c0 cs ih =>
    intro st
    rw [List.foldl_cons]
    exact evalStatic_trans (showAllTargetStep_static b st c0)
      (ih (showAllTargetStep b st c0))

theorem showAll_outer_fold_static (b : Bool) (cm : List (String × List Cond)) :
    ∀ st : FormSt,
      EvalStatic st (cm.foldl (fun st pc => pc.2.foldl (showAllTargetStep b) st) st) := by
  induction cm with
  | nil => exact fun st => evalStatic_refl st
  | cons pc0 rest ih =>
    intro st
    rw [List.foldl_cons]
    exact evalStatic_trans (showAll_inner_fold_static b pc0.2 st) (ih _)

theorem reevalParentStep_static (st : FormSt) (pc : String × List Cond) :
    EvalStatic st (reevalParentStep st pc) :=
  evaluate_static st pc.1 _

theorem reeval_fold_static (cm : List (String × List Cond)) :
    ∀ st : FormSt, EvalStatic st (cm.foldl reevalParentStep st) := by
  induction cm with
  | nil => exact fun st => evalStatic_refl st
  | cons pc0 rest ih =>
    intro st
    rw [List.foldl_cons]
    exact evalStatic_trans (reevalParentStep_static st pc0) (ih _)

theorem showAllPhase1_static (s : FormSt) (b : Bool) :
    EvalStatic s (showAllPhase1 s b) := by
  unfold showAllPhase1
  have h0 : EvalStatic s { s with showAll := b } := ⟨rfl, rfl, rfl, rfl, rfl, rfl⟩
  exact evalStatic_trans h0
    (showAll_outer_fold_static b ({ s with showAll := b }).conditionMap
      { s with showAll := b })

theorem setShowAll_static (s : FormSt) (b : Bool) :
    EvalStatic s (setShowAll s b) := by
  unfold setShowAll
  cases b with
  | true =>
    rw [if_pos rfl]
    exact showAllPhase1_static s true
  | false =>
    rw [if_neg (by simp)]
    refine evalStatic_trans (showAllPhase1_static s false) ?_
    refine evalStatic_trans (⟨rfl, rfl, rfl, rfl, rfl, rfl⟩ : EvalStatic _ _) ?_
    exact reeval_fold_static _ _

theorem evaluate_eq_of_lookup (s : FormSt) (p : String) (isCb : Bool)
    (conds : List Cond) (hm : lookupA p s.conditionMap = some conds) :
    evaluate s p isCb = conds.foldl (evalCondStep isCb (checkedValuesOf s p)) s := by
  simp only [evaluate, hm]

theorem evaluate_eq_of_none (s : FormSt) (p : String) (isCb : Bool)
    (hm : lookupA p s.conditionMap = none) : evaluate s p isCb = s := by
  simp only [evaluate, hm]

/-- Claim C1: with show-all off and no manual override on the entry's
target, after `evaluate(parentId, fieldType)` the target is visible
exactly when the condition holds — for a single-choice (radio) parent,
when the selected value is non-empty and lies in the entry's trigger set;
for a multi-choice (checkbox) parent, when the set of checked values meets
the trigger set. Stated for entries whose target exists in the DOM, with
the parent's entry list free of duplicate targets (the condition-table
invariant) and the visibility cache consistent with the target's `show`
class, which every evaluator write re-establishes. -/
theorem evaluate_visibility_correct (s : FormSt) (parentId : String) (isCb : Bool)
    (conds : List Cond) (c : Cond) (t : Elem)
    (hm : lookupA parentId s.conditionMap = some conds)
    (hc : c ∈ conds)
    (hnd : (conds.map Cond.targetId).Nodup)
    (hsa : s.showAll = false)
    (hov : c.targetId ∉ s.manualOverrides)
    (ht : lookupA c.targetId s.elements = some t)
    (hcons : ∀ was, lookupA c.targetId s.visibilityCache = some was → t.shown = was) :
    ∃ t', lookupA c.targetId (evaluate s parentId isCb).elements = some t' ∧
      (t'.shown = true ↔
        (if isCb = true then ∃ v ∈ checkedValuesOf s parentId, v ∈ c.showValues
         else ∃ v, (checkedValuesOf s parentId).head? = some v ∧ v ∈ c.showValues)) := by
  obtain ⟨hcache, t', helem, hshown, hnested⟩ :=
    foldl_target_correct isCb (checkedValuesOf s parentId) conds s c t
      hc hnd hsa hov ht hcons
  rw [evaluate_eq_of_lookup s parentId isCb conds hm]
  refine ⟨t', helem, ?_⟩
  rw [hshown]
  exact entryShouldShow_eq_true_iff isCb (checkedValuesOf s parentId) c

/-- Witness for C1 on the concrete one-entry form with the parent answer
cleared: the target ends hidden, matching the unmet radio condition. -/
theorem evaluate_visibility_correct_witness :
    ∃ t', lookupA exCond.targetId (evaluate exState "P" false).elements = some t' ∧
      (t'.shown = true ↔
        (if (false : Bool) = true then
          ∃ v ∈ checkedValuesOf exState "P", v ∈ exCond.showValues
         else ∃ v, (checkedValuesOf exState "P").head? = some v ∧
          v ∈ exCond.showValues)) :=
  evaluate_visibility_correct exState "P" false [exCond] exCond exElemT
    (by decide) (by decide) (by decide) (by decide) (by decide) (by decide)
    (by decide)

/-- Claim C8 counterexample: in the concrete form the cursor rests on the
visible conditional target `T` (index 0, not the `-1` sentinel); after the
evaluation pass `evaluate("P")` hides `T`, the cursor still rests on index
0, which now references a hidden question — the claimed invariant fails. -/
theorem cursor_rests_on_hidden_question :
    exState.questionIndex = 0 ∧
    isVisibleAt exState 0 = true ∧
    (evaluate exState "P" false).questionIndex = 0 ∧
    ¬ (evaluate exState "P" false).questionIndex = -1 ∧
    isVisibleAt (evaluate exState "P" false) 0 = false := by
  decide

/-- Claim C8 (amended): no evaluation pass — `evaluate`, `toggleManual`,
`openBranchesForParent`, `closeBranchesForParent`, `setShowAll` — ever
moves the navigation cursor; the question index and table row are exactly
preserved, so the cursor keeps referencing the same question whether or
not the pass hid it. -/
theorem evaluation_passes_preserve_cursor (s : FormSt) (p tid : String)
    (fc b : Bool) :
    (evaluate s p fc).questionIndex = s.questionIndex ∧
    (evaluate s p fc).tableRowIndex = s.tableRowIndex ∧
    (toggleManual s tid).questionIndex = s.questionIndex ∧
    (toggleManual s tid).tableRowIndex = s.tableRowIndex ∧
    (openBranchesForParent s p).1.questionIndex = s.questionIndex ∧
    (openBranchesForParent s p).1.tableRowIndex = s.tableRowIndex ∧
    (closeBranchesForParent s p).1.questionIndex = s.questionIndex ∧
    (closeBranchesForParent s p).1.tableRowIndex = s.tableRowIndex ∧
    (setShowAll s b).questionIndex = s.questionIndex ∧
    (setShowAll s b).tableRowIndex = s.tableRowIndex :=
  ⟨(evaluate_static s p fc).2.2.2.2.1, (evaluate_static s p fc).2.2.2.2.2,
   (toggleManual_static s tid).2.2.2.2.1, (toggleManual_static s tid).2.2.2.2.2,
   (openBranchesForParent_static s p).2.2.2.2.1,
   (openBranchesForParent_static s p).2.2.2.2.2,
   (closeBranchesForParent_static s p).2.2.2.2.1,
   (closeBranchesForParent_static s p).2.2.2.2.2,
   (setShowAll_static s b).2.2.2.2.1, (setShowAll_static s b).2.2.2.2.2⟩

/-! Idempotence of evaluate. -/

theorem evalCondStep_of_settled (isCb : Bool) (vs : List Int) (s : FormSt) (c : Cond)
    (h : Settled isCb vs s c) : evalCondStep isCb vs s c = s := by
  rcases h with h | h | h | h
  · unfold evalCondStep
    rw [if_pos (Or.inl h)]
  · unfold evalCondStep
    rw [if_pos (Or.inr h)]
  · unfold evalCondStep
    by_cases hsk : s.showAll = true ∨ c.targetId ∈ s.manualOverrides
    · rw [if_pos hsk]
    · rw [if_neg hsk]
      simp only [h]
      rw [if_pos trivial]
  · rcases evalCondStep_cases isCb vs s c with hc2 | hc2
    · exact hc2
    · rw [hc2]
      exact processTarget_none s c.targetId _ h

theorem evalCondStep_establishes_settled (isCb : Bool) (vs : List Int) (s : FormSt)
    (c : Cond) : Settled isCb vs (evalCondStep isCb vs s c) c := by
  by_cases hsk : s.showAll = true ∨ c.targetId ∈ s.manualOverrides
  · have hid : evalCondStep isCb vs s c = s := by
      unfold evalCondStep
      rw [if_pos hsk]
    rw [hid]
    rcases hsk with h | h
    · exact Or.inl h
    · exact Or.inr (Or.inl h)
  · unfold evalCondStep
    rw [if_neg hsk]
    cases hcv : lookupA c.targetId s.visibilityCache with
    | some was =>
      simp only [hcv]
      by_cases hw : was = entryShouldShow isCb vs c
      · rw [if_pos hw]
        exact Or.inr (Or.inr (Or.inl (by rw [hcv, hw])))
      · rw [if_neg hw]
        cases ht : lookupA c.targetId s.elements with
        | none =>
          rw [processTarget_none s c.targetId _ ht]
          exact Or.inr (Or.inr (Or.inr ht))
        | some t =>
          exact Or.inr (Or.inr (Or.inl (processTarget_cache_self s c.targetId _ t ht)))
    | none =>
      simp only [hcv]
      cases ht : lookupA c.targetId s.elements with
      | none =>
        rw [processTarget_none s c.targetId _ ht]
        exact Or.inr (Or.inr (Or.inr ht))
      | some t =>
        exact Or.inr (Or.inr (Or.inl (processTarget_cache_self s c.targetId _ t ht)))

theorem evalCondStep_preserves_settled (isCb : Bool) (vs : List Int) (s : FormSt)
    (c c0 : Cond) (hne : c.targetId ≠ c0.targetId) (h : Settled isCb vs s c) :
    Settled isCb vs (evalCondStep isCb vs s c0) c := by
  obtain ⟨hov, hsa⟩ := evalCondStep_ov_sa isCb vs s c0
  rcases h with h | h | h | h
  · exact Or.inl (by rw [hsa]; exact h)
  · exact Or.inr (Or.inl (by rw [hov]; exact h))
  · refine Or.inr (Or.inr (Or.inl ?_))
    rw [evalCondStep_cache_ne isCb vs s c0 c.targetId hne]
    exact h
  · have hel := evalCondStep_elem_ne isCb vs s c0 c.targetId hne
    rw [h] at hel
    cases ht1 : lookupA c.targetId (evalCondStep isCb vs s c0).elements with
    | none => exact Or.inr (Or.inr (Or.inr ht1))
    | some t1 =>
      rw [ht1] at hel
      exact absurd hel (by simp [OptClearOnly])

theorem foldl_preserves_settled (isCb : Bool) (vs : List Int) (conds : List Cond) :
    ∀ (s : FormSt) (c : Cond), c.targetId ∉ conds.map Cond.targetId →
      Settled isCb vs s c → Settled isCb vs (conds.foldl (evalCondStep isCb vs) s) c := by
  induction conds with
  | nil => exact fun s c _ h => h
  | cons c0 cs ih =>
    intro s c hmem h
    rw [List.map_cons, List.mem_cons] at hmem
    push_neg at hmem
    rw [List.foldl_cons]
    exact ih _ c hmem.2 (evalCondStep_preserves_settled isCb vs s c c0 hmem.1 h)

theorem foldl_all_settled (isCb : Bool) (vs : List Int) (conds : List Cond) :
    ∀ s : FormSt, (conds.map Cond.targetId).Nodup → ∀ c ∈ conds,
      Settled isCb vs (conds.foldl (evalCondStep isCb vs) s) c := by
  induction conds with
  | nil =>
    intro s _ c hc
    exact absurd hc (List.not_mem_nil c)
  | cons c0 cs ih =>
    intro s hnd c hc
    rw [List.map_cons, List.nodup_cons] at hnd
    rw [List.foldl_cons]
    rcases List.mem_cons.mp hc with heq | hcs
    · subst heq
      exact foldl_preserves_settled isCb vs cs _ c hnd.1
        (evalCondStep_establishes_settled isCb vs s c)
    · exact ih (evalCondStep isCb vs s c0) hnd.2 c hcs

theorem foldl_of_all_settled (isCb : Bool) (vs : List Int) (conds : List Cond) :
    ∀ s : FormSt, (∀ c ∈ conds, Settled isCb vs s c) →
      conds.foldl (evalCondStep isCb vs) s = s := by
  induction conds with
  | nil => exact fun s _ => rfl
  | cons c0 cs ih =>
    intro s hall
    rw [List.foldl_cons,
      evalCondStep_of_settled isCb vs s c0 (hall c0 (List.mem_cons_self c0 cs))]
    exact ih s (fun c hc => hall c (List.mem_cons_of_mem c0 hc))

/-- Claim C5: evaluation is idempotent — with the parent's answers
unchanged, a second `evaluate(P, fieldType)` performs no state mutation at
all: the state after the second call is exactly the state after the first
(no visibility toggles, no input clearing, no cache writes). Stated under
the condition-table invariant that the parent's entries carry no duplicate
target id. -/
theorem evaluate_idempotent (s : FormSt) (p : String) (isCb : Bool)
    (hnd : ∀ conds, lookupA p s.conditionMap = some conds →
      (conds.map Cond.targetId).Nodup) :
    evaluate (evaluate s p isCb) p isCb = evaluate s p isCb := by
  cases hm : lookupA p s.conditionMap with
  | none => rw [evaluate_eq_of_none s p isCb hm, evaluate_eq_of_none s p isCb hm]
  | some conds =>
    have h1 := evaluate_eq_of_lookup s p isCb conds hm
    have hcm : (evaluate s p isCb).conditionMap = s.conditionMap :=
      (evaluate_static s p isCb).1
    have hfields : (evaluate s p isCb).fields = s.fields :=
      (evaluate_static s p isCb).2.2.1
    have hm2 : lookupA p (evaluate s p isCb).conditionMap = some conds := by
      rw [hcm]
      exact hm
    have hv2 : checkedValuesOf (evaluate s p isCb) p = checkedValuesOf s p := by
      unfold checkedValuesOf
      rw [hfields]
    rw [evaluate_eq_of_lookup _ p isCb conds hm2, hv2, h1]
    exact foldl_of_all_settled isCb (checkedValuesOf s p) conds _
      (foldl_all_settled isCb (checkedValuesOf s p) conds s (hnd conds hm))

/-- Witness for C5 on the concrete one-entry form. -/
theorem evaluate_idempotent_witness :
    evaluate (evaluate exState "P" false) "P" false = evaluate exState "P" false :=
  evaluate_idempotent exState "P" false (by decide)

/-! Clearing on hide, preservation on show. -/

theorem evalCondStep_processes (isCb : Bool) (vs : List Int) (s : FormSt) (c : Cond)
    (t : Elem) (hsa : s.showAll = false) (hov : c.targetId ∉ s.manualOverrides)
    (ht : lookupA c.targetId s.elements = some t)
    (hcons : ∀ was, lookupA c.targetId s.visibilityCache = some was → t.shown = was)
    (hdiff : t.shown ≠ entryShouldShow isCb vs c) :
    evalCondStep isCb vs s c =
      processTarget s c.targetId (entryShouldShow isCb vs c) := by
  have hskip : ¬ (s.showAll = true ∨ c.targetId ∈ s.manualOverrides) := by
    simp [hsa, hov]
  unfold evalCondStep
  rw [if_neg hskip]
  cases hcv : lookupA c.targetId s.visibilityCache with
  | none => simp only [hcv]
  | some was =>
    simp only [hcv]
    have hwne : ¬ was = entryShouldShow isCb vs c := fun hw =>
      hdiff (by rw [hcons was hcv, hw])
    rw [if_neg hwne]

theorem foldl_clearedb_preserved (isCb : Bool) (vs : List Int) (conds : List Cond)
    (s : FormSt) (k : String)
    (hc : ∀ e, lookupA k s.elements = some e → e.inputs.clearedb = true) :
    ∀ e', lookupA k (conds.foldl (evalCondStep isCb vs) s).elements = some e' →
      e'.inputs.clearedb = true := by
  intro e' he'
  have hev := foldl_elem_evolve isCb vs conds s k
  rw [he'] at hev
  cases h0 : lookupA k s.elements with
  | none =>
    rw [h0] at hev
    exact absurd hev (by simp [OptInputsOnly])
  | some e0 =>
    rw [h0] at hev
    have hio : InputsOnly e0 e' := hev
    exact inputsOnly_clearedb hio (hc e0 h0)

theorem foldl_elem_untouched (isCb : Bool) (vs : List Int) (conds : List Cond) :
    ∀ (s : FormSt) (k : String),
      (∀ c ∈ conds, k ≠ c.targetId ∧
        ∀ t, lookupA c.targetId s.elements = some t → k ∉ t.nested) →
      lookupA k (conds.foldl (evalCondStep isCb vs) s).elements =
        lookupA k s.elements := by
  induction conds with
  | nil => exact fun s k _ => rfl
  | cons c0 cs ih =>
    intro s k h
    rw [List.foldl_cons]
    have h0 := h c0 (List.mem_cons_self c0 cs)
    have hstep := evalCondStep_elem_ne_untouched isCb vs s c0 k h0.1 h0.2
    have htrans : ∀ c ∈ cs, k ≠ c.targetId ∧
        ∀ t, lookupA c.targetId (evalCondStep isCb vs s c0).elements = some t →
          k ∉ t.nested := by
      intro c hc
      refine ⟨(h c (List.mem_cons_of_mem c0 hc)).1, ?_⟩
      intro t ht1
      have hev := evalCondStep_elem_evolve isCb vs s c0 c.targetId
      rw [ht1] at hev
      cases ht0 : lookupA c.targetId s.elements with
      | none =>
        rw [ht0] at hev
        exact absurd hev (by simp [OptInputsOnly])
      | some t0 =>
        rw [ht0] at hev
        have hio : InputsOnly t0 t := hev
        rw [hio.2]
        exact (h c (List.mem_cons_of_mem c0 hc)).2 t0 ht0
    rw [ih (evalCondStep isCb vs s c0) k htrans, hstep]

theorem foldl_hide_clears (isCb : Bool) (vs : List Int) (conds : List Cond) :
    ∀ (s : FormSt) (c : Cond) (t : Elem),
      c ∈ conds → (conds.map Cond.targetId).Nodup →
      s.showAll = false → c.targetId ∉ s.manualOverrides →
      lookupA c.targetId s.elements = some t →
      (∀ was, lookupA c.targetId s.visibilityCache = some was → t.shown = was) →
      t.shown = true → entryShouldShow isCb vs c = false →
      ∀ nid, (nid = c.targetId ∨ nid ∈ t.nested) →
        ∀ e', lookupA nid (conds.foldl (evalCondStep isCb vs) s).elements = some e' →
          e'.inputs.clearedb = true := by
  induction conds with
  | nil =>
    intro s c t hc
    exact absurd hc (List.not_mem_nil c)
  | cons c0 cs ih =>
    intro s c t hc hnd hsa hov ht hcons hshown hss nid hn e' he'
    rw [List.map_cons, List.nodup_cons] at hnd
    rw [List.foldl_cons] at he'
    rcases List.mem_cons.mp hc with heq | hcs
    · subst heq
      have hdiff : t.shown ≠ entryShouldShow isCb vs c := by
        rw [hshown, hss]
        simp
      rw [evalCondStep_processes isCb vs s c t hsa hov ht hcons hdiff, hss] at he'
      exact foldl_clearedb_preserved isCb vs cs _ nid
        (processTarget_clears s c.targetId t nid ht hn) e' he'
    · have hmem0 : c.targetId ∈ cs.map Cond.targetId :=
        List.mem_map_of_mem Cond.targetId hcs
      have hne : c.targetId ≠ c0.targetId := fun hh => hnd.1 (hh ▸ hmem0)
      have hostep := evalCondStep_ov_sa isCb vs s c0
      have hsa1 : (evalCondStep isCb vs s c0).showAll = false := by
        rw [hostep.2, hsa]
      have hov1 : c.targetId ∉ (evalCondStep isCb vs s c0).manualOverrides := by
        rw [hostep.1]
        exact hov
      have hel := evalCondStep_elem_ne isCb vs s c0 c.targetId hne
      rw [ht] at hel
      cases ht1 : lookupA c.targetId (evalCondStep isCb vs s c0).elements with
      | none =>
        rw [ht1] at hel
        exact absurd hel (by simp [OptClearOnly])
      | some t1 =>
        rw [ht1] at hel
        have hel' : ClearOnly t t1 := hel
        have hcons1 : ∀ was,
            lookupA c.targetId (evalCondStep isCb vs s c0).visibilityCache = some was →
              t1.shown = was := by
          intro was hww
          rw [evalCondStep_cache_ne isCb vs s c0 c.targetId hne] at hww
          rw [ClearOnly.shown_eq hel']
          exact hcons was hww
        have hshown1 : t1.shown = true := by
          rw [ClearOnly.shown_eq hel', hshown]
        have hn1 : nid = c.targetId ∨ nid ∈ t1.nested := by
          rw [ClearOnly.nested_eq hel']
          exact hn
        exact ih (evalCondStep isCb vs s c0) c t1 hcs hnd.2 hsa1 hov1 ht1 hcons1
          hshown1 hss nid hn1 e' he'

theorem foldl_show_preserves (isCb : Bool) (vs : List Int) (conds : List Cond) :
    ∀ (s : FormSt) (c : Cond) (t : Elem),
      c ∈ conds → (conds.map Cond.targetId).Nodup →
      s.showAll = false → c.targetId ∉ s.manualOverrides →
      lookupA c.targetId s.elements = some t →
      (∀ was, lookupA c.targetId s.visibilityCache = some was → t.shown = was) →
      t.shown = false → entryShouldShow isCb vs c = true →
      (∀ c' ∈ conds, c' ≠ c → ∀ t'', lookupA c'.targetId s.elements = some t'' →
        c.targetId ∉ t''.nested) →
      lookupA c.targetId (conds.foldl (evalCondStep isCb vs) s).elements =
        some { t with shown := true } := by
  induction conds with
  | nil =>
    intro s c t hc
    exact absurd hc (List.not_mem_nil c)
  | cons c0 cs ih =>
    intro s c t hc hnd hsa hov ht hcons hshown hss hdisj
    rw [List.map_cons, List.nodup_cons] at hnd
    rw [List.foldl_cons]
    rcases List.mem_cons.mp hc with heq | hcs
    · subst heq
      have hdiff : t.shown ≠ entryShouldShow isCb vs c := by
        rw [hshown, hss]
        simp
      have hstep := evalCondStep_processes isCb vs s c t hsa hov ht hcons hdiff
      rw [hstep, hss]
      have hself : lookupA c.targetId (processTarget s c.targetId true).elements =
          some { t with shown := true } := by
        rw [processTarget_elem_self s c.targetId true t ht]
        simp
      have huntouched : ∀ c' ∈ cs, c.targetId ≠ c'.targetId ∧
          ∀ t'', lookupA c'.targetId (processTarget s c.targetId true).elements =
            some t'' → c.targetId ∉ t''.nested := by
        intro c' hc'
        have hne' : c.targetId ≠ c'.targetId := fun hh =>
          hnd.1 (hh ▸ List.mem_map_of_mem Cond.targetId hc')
        refine ⟨hne', ?_⟩
        intro t'' ht''
        have hev := processTarget_elem_evolve s c.targetId true c'.targetId
        rw [ht''] at hev
        cases ht0 : lookupA c'.targetId s.elements with
        | none =>
          rw [ht0] at hev
          exact absurd hev (by simp [OptInputsOnly])
        | some t0 =>
          rw [ht0] at hev
          have hio : InputsOnly t0 t'' := hev
          rw [hio.2]
          have hcne : c' ≠ c := fun hh => hne' (by rw [hh])
          exact hdisj c' (List.mem_cons_of_mem _ hc') hcne t0 ht0
      rw [foldl_elem_untouched isCb vs cs (processTarget s c.targetId true)
        c.targetId huntouched]
      exact hself
    · have hmem0 : c.targetId ∈ cs.map Cond.targetId :=
        List.mem_map_of_mem Cond.targetId hcs
      have hne : c.targetId ≠ c0.targetId := fun hh => hnd.1 (hh ▸ hmem0)
      have hc0ne : c0 ≠ c := fun hh => hne (by rw [hh])
      have hstep := evalCondStep_elem_ne_untouched isCb vs s c0 c.targetId hne
        (fun t'' ht'' => hdisj c0 (List.mem_cons_self c0 cs) hc0ne t'' ht'')
      have hostep := evalCondStep_ov_sa isCb vs s c0
      have hsa1 : (evalCondStep isCb vs s c0).showAll = false := by
        rw [hostep.2, hsa]
      have hov1 : c.targetId ∉ (evalCondStep isCb vs s c0).manualOverrides := by
        rw [hostep.1]
        exact hov
      have ht1 : lookupA c.targetId (evalCondStep isCb vs s c0).elements = some t := by
        rw [hstep]
        exact ht
      have hcons1 : ∀ was,
          lookupA c.targetId (evalCondStep isCb vs s c0).visibilityCache = some was →
            t.shown = was := by
        intro was hww
        rw [evalCondStep_cache_ne isCb vs s c0 c.targetId hne] at hww
        exact hcons was hww
      have hdisj1 : ∀ c' ∈ cs, c' ≠ c →
          ∀ t'', lookupA c'.targetId (evalCondStep isCb vs s c0).elements = some t'' →
            c.targetId ∉ t''.nested := by
        intro c' hc' hcne t'' ht''
        have hev := evalCondStep_elem_evolve isCb vs s c0 c'.targetId
        rw [ht''] at hev
        cases ht0 : lookupA c'.targetId s.elements with
        | none =>
          rw [ht0] at hev
          exact absurd hev (by simp [OptInputsOnly])
        | some t0 =>
          rw [ht0] at hev
          have hio : InputsOnly t0 t'' := hev
          rw [hio.2]
          exact hdisj c' (List.mem_cons_of_mem _ hc') hcne t0 ht0
      exact ih (evalCondStep isCb vs s c0) c t hcs hnd.2 hsa1 hov1 ht1 hcons1
        hshown hss hdisj1

/-- Claim C4: frame effect of one evaluation pass on one entry's target.
When the pass transitions the target from visible to hidden, every input
under it is cleared: the target's own element and every element nested in
its subtree end with all checked state reset, text fields and textareas
empty and selects at their first option. When the pass transitions the
target from hidden to visible, the target's element is exactly its old
element with the `show` class added — none of its inputs is modified
(inputs of separately governed elements nested inside it follow their own
entries, which is the disjointness hypothesis). Hypotheses as in C1. -/
theorem evaluate_hidden_clears_visible_preserves (s : FormSt) (parentId : String)
    (isCb : Bool) (conds : List Cond) (c : Cond) (t : Elem)
    (hm : lookupA parentId s.conditionMap = some conds)
    (hc : c ∈ conds)
    (hnd : (conds.map Cond.targetId).Nodup)
    (hsa : s.showAll = false)
    (hov : c.targetId ∉ s.manualOverrides)
    (ht : lookupA c.targetId s.elements = some t)
    (hcons : ∀ was, lookupA c.targetId s.visibilityCache = some was → t.shown = was) :
    (t.shown = true →
      entryShouldShow isCb (checkedValuesOf s parentId) c = false →
      ∀ nid, (nid = c.targetId ∨ nid ∈ t.nested) →
        ∀ e', lookupA nid (evaluate s parentId isCb).elements = some e' →
          e'.inputs.clearedb = true) ∧
    (t.shown = false →
      entryShouldShow isCb (checkedValuesOf s parentId) c = true →
      (∀ c' ∈ conds, c' ≠ c → ∀ t'', lookupA c'.targetId s.elements = some t'' →
        c.targetId ∉ t''.nested) →
      lookupA c.targetId (evaluate s parentId isCb).elements =
        some { t with shown := true }) := by
  rw [evaluate_eq_of_lookup s parentId isCb conds hm]
  constructor
  · intro h1 h2 nid hn e' he'
    exact foldl_hide_clears isCb (checkedValuesOf s parentId) conds s c t hc hnd
      hsa hov ht hcons h1 h2 nid hn e' he'
  · intro h1 h2 hdisj
    exact foldl_show_preserves isCb (checkedValuesOf s parentId) conds s c t hc hnd
      hsa hov ht hcons h1 h2 hdisj

/-- Witness for C4: in the concrete form the pass hides `T` and clears its
checked input and text field. -/
theorem evaluate_hidden_clears_visible_preserves_witness :
    ∃ e', lookupA exCond.targetId (evaluate exState "P" false).elements = some e' ∧
      e'.inputs.clearedb = true := by
  refine ⟨{ exElemT with shown := false, inputs := exElemT.inputs.clear },
    by decide, ?_⟩
  exact (evaluate_hidden_clears_visible_preserves exState "P" false [exCond] exCond
    exElemT (by decide) (by decide) (by decide) (by decide) (by decide) (by decide)
    (by decide)).1 (by decide) (by decide) exCond.targetId (Or.inl rfl)
    { exElemT with shown := false, inputs := exElemT.inputs.clear } (by decide)

/-! Forced-override query. -/

theorem isConditionMet_iff (s : FormSt) (tid : String) :
    isConditionMet s tid = true ↔
      ∃ p conds, (p, conds) ∈ s.conditionMap ∧ ∃ c ∈ conds, c.targetId = tid ∧
        (if fieldTypeIsCheckbox s p = true then
          ∃ v ∈ checkedValuesOf s p, v ∈ c.showValues
         else ∃ v, (checkedValuesOf s p).head? = some v ∧ v ∈ c.showValues) := by
  unfold isConditionMet
  rw [List.any_eq_true]
  constructor
  · rintro ⟨pc, hpc, hin⟩
    rw [List.any_eq_true] at hin
    obtain ⟨c, hcmem, hcx⟩ := hin
    rw [Bool.and_eq_true] at hcx
    have htid : c.targetId = tid := by simpa using hcx.1
    refine ⟨pc.1, pc.2, hpc, c, hcmem, htid, ?_⟩
    have hcond := hcx.2
    by_cases hft : fieldTypeIsCheckbox s pc.1 = true
    · rw [if_pos hft] at hcond ⊢
      simpa using hcond
    · rw [if_neg hft] at hcond ⊢
      cases hh : (checkedValuesOf s pc.1).head? with
      | none =>
        rw [hh] at hcond
        cases hcond
      | some v =>
        simp only [hh] at hcond
        exact ⟨v, rfl, by simpa using hcond⟩
  · rintro ⟨p, conds, hmem, c, hcmem, htid, hcond⟩
    refine ⟨(p, conds), hmem, ?_⟩
    rw [List.any_eq_true]
    refine ⟨c, hcmem, ?_⟩
    dsimp only
    rw [Bool.and_eq_true]
    refine ⟨by simpa using htid, ?_⟩
    by_cases hft : fieldTypeIsCheckbox s p = true
    · rw [if_pos hft] at hcond ⊢
      simpa using hcond
    · rw [if_neg hft] at hcond ⊢
      obtain ⟨v, hv, hvm⟩ := hcond
      simp only [hv]
      simpa using hvm

/-- Claim C6: `getForcedOverrideIds()` returns exactly the overridden
targets whose real condition is unmet: `tid` is in the result exactly when
it is in the manual-override set and no condition entry for `tid` is
satisfied by its parent's current answer (checkbox parents by
intersection, radio parents by the first checked value). In particular the
result is empty when no override is active, and when every overridden
target's condition is met. -/
theorem forced_override_ids_spec (s : FormSt) (tid : String) :
    (tid ∈ getForcedOverrideIds s ↔
      tid ∈ s.manualOverrides ∧
        ¬ ∃ p conds, (p, conds) ∈ s.conditionMap ∧ ∃ c ∈ conds, c.targetId = tid ∧
          (if fieldTypeIsCheckbox s p = true then
            ∃ v ∈ checkedValuesOf s p, v ∈ c.showValues
           else ∃ v, (checkedValuesOf s p).head? = some v ∧ v ∈ c.showValues)) ∧
    (s.manualOverrides = [] → getForcedOverrideIds s = []) ∧
    ((∀ t ∈ s.manualOverrides, isConditionMet s t = true) →
      getForcedOverrideIds s = []) := by
  refine ⟨?_, ?_, ?_⟩
  · unfold getForcedOverrideIds
    rw [List.mem_filter]
    constructor
    · rintro ⟨hmem, hnot⟩
      refine ⟨hmem, ?_⟩
      intro hex
      rw [← isConditionMet_iff] at hex
      simp [hex] at hnot
    · rintro ⟨hmem, hnex⟩
      refine ⟨hmem, ?_⟩
      have hfalse : isConditionMet s tid = false := by
        cases hmet : isConditionMet s tid
        · rfl
        · exact absurd ((isConditionMet_iff s tid).mp hmet) hnex
      simp [hfalse]
  · intro h
    unfold getForcedOverrideIds
    rw [h]
    rfl
  · intro h
    unfold getForcedOverrideIds
    rw [List.filter_eq_nil_iff]
    intro a ha
    simp [h a ha]

/-- Witness for C6: in the concrete form with `T` overridden and the
parent answer cleared, `T` is flagged; with no override the list is
empty. -/
theorem forced_override_ids_spec_witness :
    "T" ∈ exC6.manualOverrides ∧ getForcedOverrideIds exState = [] :=
  ⟨((forced_override_ids_spec exC6 "T").1.mp (by decide)).1,
   (forced_override_ids_spec exState "T").2.2 (by decide)⟩

/-! Turning show-all off. -/

theorem lookupA_of_mem_nodupKeys {β : Type} (l : List (String × β)) :
    ∀ pc : String × β, (l.map Prod.fst).Nodup → pc ∈ l → lookupA pc.1 l = some pc.2 := by
  induction l with
  | nil =>
    intro pc _ hmem
    cases hmem
  | cons hd tl ih =>
    intro pc hnd hmem
    obtain ⟨k1, v1⟩ := hd
    rw [List.map_cons, List.nodup_cons] at hnd
    rcases List.mem_cons.mp hmem with heq | hmem'
    · subst heq
      simp [lookupA]
    · have hin : pc.1 ∈ List.map Prod.fst tl := List.mem_map_of_mem Prod.fst hmem'
      have hne : k1 ≠ pc.1 := by
        intro hh
        apply hnd.1
        show k1 ∈ List.map Prod.fst tl
        rw [hh]
        exact hin
      simp only [lookupA, if_neg hne]
      exact ih pc hnd.2 hmem'

theorem fieldTypeIsCheckbox_congr (s s' : FormSt) (h : s'.fields = s.fields)
    (p : String) : fieldTypeIsCheckbox s' p = fieldTypeIsCheckbox s p := by
  unfold fieldTypeIsCheckbox
  rw [h]

theorem checkedValuesOf_congr (s s' : FormSt) (h : s'.fields = s.fields)
    (p : String) : checkedValuesOf s' p = checkedValuesOf s p := by
  unfold checkedValuesOf
  rw [h]

theorem mem_allTargets (cm : List (String × List Cond)) (p : String)
    (conds : List Cond) (c : Cond) (hm : (p, conds) ∈ cm) (hc : c ∈ conds) :
    c.targetId ∈ allTargets cm := by
  unfold allTargets
  rw [List.mem_flatten]
  exact ⟨conds.map Cond.targetId,
    List.mem_map_of_mem (fun pc => pc.2.map Cond.targetId) hm,
    List.mem_map_of_mem Cond.targetId hc⟩

theorem showAllTargetStep_false_parts (st : FormSt) (c : Cond) :
    (showAllTargetStep false st c).elements = st.elements ∧
      (showAllTargetStep false st c).manualOverrides = st.manualOverrides ∧
      (showAllTargetStep false st c).showAll = st.showAll := by
  cases hl : lookupA c.targetId st.elements with
  | none => simp [showAllTargetStep, hl]
  | some t => simp [showAllTargetStep, hl]

theorem showAllTargetStep_false_removes (st : FormSt) (c : Cond) (t : Elem)
    (h : lookupA c.targetId st.elements = some t) :
    lookupA c.targetId (showAllTargetStep false st c).visibilityCache = none := by
  simp only [showAllTargetStep, h, Bool.false_eq_true, if_false]
  exact lookupA_removeA_self _ _

theorem showAllTargetStep_false_cache_mono (st : FormSt) (c : Cond) (k : String) :
    lookupA k (showAllTargetStep false st c).visibilityCache =
        lookupA k st.visibilityCache ∨
      lookupA k (showAllTargetStep false st c).visibilityCache = none := by
  cases hl : lookupA c.targetId st.elements with
  | none => simp [showAllTargetStep, hl]
  | some t =>
    simp only [showAllTargetStep, hl, Bool.false_eq_true, if_false]
    by_cases hk : k = c.targetId
    · subst hk
      exact Or.inr (lookupA_removeA_self _ _)
    · exact Or.inl (lookupA_removeA_ne _ _ _ hk)

theorem phase1_inner_parts (conds : List Cond) :
    ∀ st : FormSt,
      (conds.foldl (showAllTargetStep false) st).elements = st.elements ∧
        (conds.foldl (showAllTargetStep false) st).manualOverrides =
          st.manualOverrides ∧
        (conds.foldl (showAllTargetStep false) st).showAll = st.showAll := by
  induction conds with
  | nil => exact fun st => ⟨rfl, rfl, rfl⟩
  | cons c0 cs ih =>
    intro st
    rw [List.foldl_cons]
    obtain ⟨e1, o1, s1⟩ := showAllTargetStep_false_parts st c0
    obtain ⟨e2, o2, s2⟩ := ih (showAllTargetStep false st c0)
    exact ⟨e2.trans e1, o2.trans o1, s2.trans s1⟩

theorem phase1_inner_cache_mono (conds : List Cond) :
    ∀ (st : FormSt) (k : String),
      lookupA k (conds.foldl (showAllTargetStep false) st).visibilityCache =
          lookupA k st.visibilityCache ∨
        lookupA k (conds.foldl (showAllTargetStep false) st).visibilityCache =
          none := by
  induction conds with
  | nil => exact fun st k => Or.inl rfl
  | cons c0 cs ih =>
    intro st k
    rw [List.foldl_cons]
    rcases ih (showAllTargetStep false st c0) k with h | h
    · rw [h]
      exact showAllTargetStep_false_cache_mono st c0 k
    · exact Or.inr h

theorem phase1_inner_removes (conds : List Cond) :
    ∀ (st : FormSt) (c : Cond) (t : Elem), c ∈ conds →
      lookupA c.targetId st.elements = some t →
      lookupA c.targetId
        (conds.foldl (showAllTargetStep false) st).visibilityCache = none := by
  induction conds with
  | nil =>
    intro st c t hc
    exact absurd hc (List.not_mem_nil c)
  | cons c0 cs ih =>
    intro st c t hc ht
    rw [List.foldl_cons]
    rcases List.mem_cons.mp hc with heq | hcs
    · subst heq
      have hrm := showAllTargetStep_false_removes st c t ht
      rcases phase1_inner_cache_mono cs (showAllTargetStep false st c) c.targetId
        with h | h
      · rw [h, hrm]
      · exact h
    · have he := (showAllTargetStep_false_parts st c0).1
      exact ih (showAllTargetStep false st c0) c t hcs (by rw [he]; exact ht)

theorem phase1_outer_parts (cm : List (String × List Cond)) :
    ∀ st : FormSt,
      (cm.foldl (fun st (pc : String × List Cond) =>
          pc.2.foldl (showAllTargetStep false) st) st).elements = st.elements ∧
        (cm.foldl (fun st (pc : String × List Cond) =>
          pc.2.foldl (showAllTargetStep false) st) st).manualOverrides =
            st.manualOverrides ∧
        (cm.foldl (fun st (pc : String × List Cond) =>
          pc.2.foldl (showAllTargetStep false) st) st).showAll = st.showAll := by
  induction cm with
  | nil => exact fun st => ⟨rfl, rfl, rfl⟩
  | cons pc0 rest ih =>
    intro st
    rw [List.foldl_cons]
    obtain ⟨e1, o1, s1⟩ := phase1_inner_parts pc0.2 st
    obtain ⟨e2, o2, s2⟩ := ih (pc0.2.foldl (showAllTargetStep false) st)
    exact ⟨e2.trans e1, o2.trans o1, s2.trans s1⟩

theorem phase1_outer_cache_mono (cm : List (String × List Cond)) :
    ∀ (st : FormSt) (k : String),
      lookupA k (cm.foldl (fun st (pc : String × List Cond) =>
          pc.2.foldl (showAllTargetStep false) st) st).visibilityCache =
          lookupA k st.visibilityCache ∨
        lookupA k (cm.foldl (fun st (pc : String × List Cond) =>
          pc.2.foldl (showAllTargetStep false) st) st).visibilityCache = none := by
  induction cm with
  | nil => exact fun st k => Or.inl rfl
  | cons pc0 rest ih =>
    intro st k
    rw [List.foldl_cons]
    rcases ih (pc0.2.foldl (showAllTargetStep false) st) k with h | h
    · rw [h]
      exact phase1_inner_cache_mono pc0.2 st k
    · exact Or.inr h

theorem phase1_outer_removes (cm : List (String × List Cond)) :
    ∀ (st : FormSt) (p : String) (conds : List Cond) (c : Cond) (t : Elem),
      (p, conds) ∈ cm → c ∈ conds → lookupA c.targetId st.elements = some t →
      lookupA c.targetId (cm.foldl (fun st (pc : String × List Cond) =>
        pc.2.foldl (showAllTargetStep false) st) st).visibilityCache = none := by
  induction cm with
  | nil =>
    intro st p conds c t hm
    exact absurd hm (List.not_mem_nil _)
  | cons pc0 rest ih =>
    intro st p conds c t hm hc ht
    rw [List.foldl_cons]
    rcases List.mem_cons.mp hm with heq | hm'
    · subst heq
      have hrm := phase1_inner_removes conds st c t hc ht
      rcases phase1_outer_cache_mono rest
        (conds.foldl (showAllTargetStep false) st) c.targetId with h | h
      · rw [h]
        exact hrm
      · exact h
    · have he := (phase1_inner_parts pc0.2 st).1
      exact ih (pc0.2.foldl (showAllTargetStep false) st) p conds c t hm' hc
        (by rw [he]; exact ht)

theorem showAllPhase1_false_parts (s : FormSt) :
    (showAllPhase1 s false).elements = s.elements ∧
      (showAllPhase1 s false).manualOverrides = s.manualOverrides ∧
      (showAllPhase1 s false).showAll = false := by
  unfold showAllPhase1
  exact phase1_outer_parts ({ s with showAll := false }).conditionMap
    { s with showAll := false }

theorem showAllPhase1_false_removes (s : FormSt) (p : String) (conds : List Cond)
    (c : Cond) (t : Elem) (hm : (p, conds) ∈ s.conditionMap) (hc : c ∈ conds)
    (ht : lookupA c.targetId s.elements = some t) :
    lookupA c.targetId (showAllPhase1 s false).visibilityCache = none := by
  unfold showAllPhase1
  exact phase1_outer_removes ({ s with showAll := false }).conditionMap
    { s with showAll := false } p conds c t hm hc ht

theorem setShowAll_false_eq (s : FormSt) :
    setShowAll s false =
      ({ showAllPhase1 s false with
          manualOverrides := ([] : List String) }).conditionMap.foldl
        reevalParentStep
        { showAllPhase1 s false with manualOverrides := ([] : List String) } := by
  simp only [setShowAll, Bool.false_eq_true, if_false]

theorem phase2_fold_ov_sa (cm2 : List (String × List Cond)) :
    ∀ st : FormSt,
      (cm2.foldl reevalParentStep st).manualOverrides = st.manualOverrides ∧
        (cm2.foldl reevalParentStep st).showAll = st.showAll := by
  induction cm2 with
  | nil => exact fun st => ⟨rfl, rfl⟩
  | cons pc0 rest ih =>
    intro st
    rw [List.foldl_cons]
    obtain ⟨o2, s2⟩ := ih (reevalParentStep st pc0)
    have h1 : (reevalParentStep st pc0).manualOverrides = st.manualOverrides :=
      (evaluate_ov_sa st pc0.1 (fieldTypeIsCheckbox st pc0.1)).1
    have h2 : (reevalParentStep st pc0).showAll = st.showAll :=
      (evaluate_ov_sa st pc0.1 (fieldTypeIsCheckbox st pc0.1)).2
    exact ⟨o2.trans h1, s2.trans h2⟩

theorem phase2_fold_preserveAt (cm2 : List (String × List Cond)) :
    ∀ (st : FormSt) (tid : String),
      (∀ pc ∈ cm2, lookupA pc.1 st.conditionMap = some pc.2) →
      tid ∉ allTargets cm2 →
      lookupA tid (cm2.foldl reevalParentStep st).visibilityCache =
          lookupA tid st.visibilityCache ∧
        OptClearOnly (lookupA tid st.elements)
          (lookupA tid (cm2.foldl reevalParentStep st).elements) := by
  induction cm2 with
  | nil => exact fun st tid _ _ => ⟨rfl, optClearOnly_refl _⟩
  | cons pc0 rest ih =>
    intro st tid hsub htid
    rw [List.foldl_cons]
    have hA : allTargets (pc0 :: rest) =
        pc0.2.map Cond.targetId ++ allTargets rest := rfl
    rw [hA, List.mem_append] at htid
    push_neg at htid
    have hstep := evaluate_preserveAt st pc0.1 (fieldTypeIsCheckbox st pc0.1) tid
      (by
        intro conds2 hl
        have h0 := hsub pc0 (List.mem_cons_self _ _)
        rw [h0] at hl
        cases hl
        exact htid.1)
    have hst1cm : (reevalParentStep st pc0).conditionMap = st.conditionMap :=
      (evaluate_static st pc0.1 (fieldTypeIsCheckbox st pc0.1)).1
    have hsub1 : ∀ pc ∈ rest,
        lookupA pc.1 (reevalParentStep st pc0).conditionMap = some pc.2 := by
      intro pc hpc
      rw [hst1cm]
      exact hsub pc (List.mem_cons_of_mem _ hpc)
    obtain ⟨hc2, he2⟩ := ih (reevalParentStep st pc0) tid hsub1 htid.2
    constructor
    · rw [hc2]
      exact hstep.1
    · exact optClearOnly_trans hstep.2 he2

theorem phase2_fold_correct (cm2 : List (String × List Cond)) :
    ∀ (st : FormSt) (p : String) (conds : List Cond) (c : Cond) (t : Elem),
      (p, conds) ∈ cm2 →
      (allTargets cm2).Nodup →
      (∀ pc ∈ cm2, lookupA pc.1 st.conditionMap = some pc.2) →
      st.showAll = false →
      st.manualOverrides = [] →
      c ∈ conds →
      lookupA c.targetId st.elements = some t →
      lookupA c.targetId st.visibilityCache = none →
      ∃ t', lookupA c.targetId (cm2.foldl reevalParentStep st).elements = some t' ∧
        t'.shown = entryShouldShow (fieldTypeIsCheckbox st p)
          (checkedValuesOf st p) c := by
  induction cm2 with
  | nil =>
    intro st p conds c t hm
    exact absurd hm (List.not_mem_nil _)
  | cons pc0 rest ih =>
    intro st p conds c t hm hnd hsub hsa hov hc ht hcache
    have hA : allTargets (pc0 :: rest) =
        pc0.2.map Cond.targetId ++ allTargets rest := rfl
    rw [hA, List.nodup_append] at hnd
    rw [List.foldl_cons]
    rcases List.mem_cons.mp hm with heq | hm'
    · subst heq
      have hlook : lookupA p st.conditionMap = some conds :=
        hsub (p, conds) (List.mem_cons_self _ _)
      have hcons0 : ∀ was,
          lookupA c.targetId st.visibilityCache = some was → t.shown = was := by
        intro was hw
        rw [hcache] at hw
        cases hw
      have hov2 : c.targetId ∉ st.manualOverrides := by
        rw [hov]
        exact List.not_mem_nil _
      obtain ⟨hcc, t1, he1, hs1, hn1⟩ :=
        foldl_target_correct (fieldTypeIsCheckbox st p) (checkedValuesOf st p)
          conds st c t hc hnd.1 hsa hov2 ht hcons0
      have hstep : reevalParentStep st (p, conds) =
          conds.foldl
            (evalCondStep (fieldTypeIsCheckbox st p) (checkedValuesOf st p)) st := by
        unfold reevalParentStep
        exact evaluate_eq_of_lookup st p _ conds hlook
      have hst1sub : ∀ pc ∈ rest,
          lookupA pc.1 (reevalParentStep st (p, conds)).conditionMap = some pc.2 := by
        intro pc hpc
        have hcm : (reevalParentStep st (p, conds)).conditionMap = st.conditionMap :=
          (evaluate_static st p (fieldTypeIsCheckbox st p)).1
        rw [hcm]
        exact hsub pc (List.mem_cons_of_mem _ hpc)
      have htid' : c.targetId ∉ allTargets rest := fun hx =>
        hnd.2.2 (List.mem_map_of_mem Cond.targetId hc) hx
      obtain ⟨hpc2, hpe2⟩ := phase2_fold_preserveAt rest (reevalParentStep st (p, conds))
        c.targetId hst1sub htid'
      rw [hstep] at hpe2 ⊢
      rw [he1] at hpe2
      cases hfin : lookupA c.targetId ((rest.foldl reevalParentStep
          (conds.foldl (evalCondStep (fieldTypeIsCheckbox st p)
            (checkedValuesOf st p)) st))).elements with
      | none =>
        rw [hfin] at hpe2
        exact absurd hpe2 (by simp [OptClearOnly])
      | some t2 =>
        rw [hfin] at hpe2
        have hco : ClearOnly t1 t2 := hpe2
        refine ⟨t2, rfl, ?_⟩
        rw [ClearOnly.shown_eq hco, hs1]
    · have hst1cm : (reevalParentStep st pc0).conditionMap = st.conditionMap :=
        (evaluate_static st pc0.1 (fieldTypeIsCheckbox st pc0.1)).1
      have hsub1 : ∀ pc ∈ rest,
          lookupA pc.1 (reevalParentStep st pc0).conditionMap = some pc.2 := by
        intro pc hpc
        rw [hst1cm]
        exact hsub pc (List.mem_cons_of_mem _ hpc)
      have hsa1 : (reevalParentStep st pc0).showAll = false := by
        have h2 : (reevalParentStep st pc0).showAll = st.showAll :=
          (evaluate_ov_sa st pc0.1 (fieldTypeIsCheckbox st pc0.1)).2
        rw [h2, hsa]
      have hov1 : (reevalParentStep st pc0).manualOverrides = [] := by
        have h2 : (reevalParentStep st pc0).manualOverrides = st.manualOverrides :=
          (evaluate_ov_sa st pc0.1 (fieldTypeIsCheckbox st pc0.1)).1
        rw [h2, hov]
      have htid0 : c.targetId ∉ pc0.2.map Cond.targetId := fun hx =>
        hnd.2.2 hx (mem_allTargets rest p conds c hm' hc)
      have hstep := evaluate_preserveAt st pc0.1 (fieldTypeIsCheckbox st pc0.1)
        c.targetId
        (by
          intro conds2 hl
          have h0 := hsub pc0 (List.mem_cons_self _ _)
          rw [h0] at hl
          cases hl
          exact htid0)
      have hcache1 : lookupA c.targetId
          (reevalParentStep st pc0).visibilityCache = none := by
        have h1 : lookupA c.targetId (reevalParentStep st pc0).visibilityCache =
            lookupA c.targetId st.visibilityCache := hstep.1
        rw [h1, hcache]
      have hel : OptClearOnly (lookupA c.targetId st.elements)
          (lookupA c.targetId (reevalParentStep st pc0).elements) := hstep.2
      rw [ht] at hel
      cases ht1 : lookupA c.targetId (reevalParentStep st pc0).elements with
      | none =>
        rw [ht1] at hel
        exact absurd hel (by simp [OptClearOnly])
      | some t1 =>
        obtain ⟨t', hfin, hshown⟩ := ih (reevalParentStep st pc0) p conds c t1 hm'
          hnd.2.1 hsub1 hsa1 hov1 hc ht1 hcache1
        refine ⟨t', hfin, ?_⟩
        rw [hshown]
        have hf : (reevalParentStep st pc0).fields = st.fields :=
          (evaluate_static st pc0.1 (fieldTypeIsCheckbox st pc0.1)).2.2.1
        rw [fieldTypeIsCheckbox_congr st _ hf p, checkedValuesOf_congr st _ hf p]

/-- `setShowAll(false)` in the answers-static base model: the manual
overrides are emptied and, every parent being re-evaluated, every target
that exists ends visible exactly when its condition holds against the
answers — valid for the full program only when cascaded clearing cannot
touch a parent's answers (see the simulation below). Stated under the
condition-table invariants: parents are unique keys (a JS object) and
every target is governed by exactly one entry. -/
theorem setShowAll_off_base (s : FormSt)
    (hkeys : (s.conditionMap.map Prod.fst).Nodup)
    (htargets : (allTargets s.conditionMap).Nodup) :
    (setShowAll s false).manualOverrides = [] ∧
      ∀ p conds c t, (p, conds) ∈ s.conditionMap → c ∈ conds →
        lookupA c.targetId s.elements = some t →
        ∃ t', lookupA c.targetId (setShowAll s false).elements = some t' ∧
          (t'.shown = true ↔
            (if fieldTypeIsCheckbox s p = true then
              ∃ v ∈ checkedValuesOf s p, v ∈ c.showValues
             else ∃ v, (checkedValuesOf s p).head? = some v ∧
              v ∈ c.showValues)) := by
  obtain ⟨hpe, hpo, hps⟩ := showAllPhase1_false_parts s
  have hcmp : (showAllPhase1 s false).conditionMap = s.conditionMap :=
    (showAllPhase1_static s false).1
  have hfp : (showAllPhase1 s false).fields = s.fields :=
    (showAllPhase1_static s false).2.2.1
  constructor
  · rw [setShowAll_false_eq s]
    have h := (phase2_fold_ov_sa
      (({ showAllPhase1 s false with
        manualOverrides := ([] : List String) }).conditionMap)
      { showAllPhase1 s false with manualOverrides := ([] : List String) }).1
    rw [h]
  · intro p conds c t hm hc ht
    rw [setShowAll_false_eq s]
    have hs2cm : ({ showAllPhase1 s false with
        manualOverrides := ([] : List String) } : FormSt).conditionMap =
        s.conditionMap := hcmp
    have hs2el : ({ showAllPhase1 s false with
        manualOverrides := ([] : List String) } : FormSt).elements =
        s.elements := hpe
    have hs2sa : ({ showAllPhase1 s false with
        manualOverrides := ([] : List String) } : FormSt).showAll = false := hps
    have hs2f : ({ showAllPhase1 s false with
        manualOverrides := ([] : List String) } : FormSt).fields = s.fields := hfp
    have hm2 : (p, conds) ∈ ({ showAllPhase1 s false with
        manualOverrides := ([] : List String) } : FormSt).conditionMap := by
      rw [hs2cm]
      exact hm
    have hsub : ∀ pc ∈ ({ showAllPhase1 s false with
        manualOverrides := ([] : List String) } : FormSt).conditionMap,
        lookupA pc.1 ({ showAllPhase1 s false with
          manualOverrides := ([] : List String) } : FormSt).conditionMap =
          some pc.2 := by
      intro pc hpc
      refine lookupA_of_mem_nodupKeys _ pc ?_ hpc
      rw [hs2cm]
      exact hkeys
    have hnd2 : (allTargets ({ showAllPhase1 s false with
        manualOverrides := ([] : List String) } : FormSt).conditionMap).Nodup := by
      rw [hs2cm]
      exact htargets
    have ht2 : lookupA c.targetId ({ showAllPhase1 s false with
        manualOverrides := ([] : List String) } : FormSt).elements = some t := by
      rw [hs2el]
      exact ht
    have hcache2 : lookupA c.targetId ({ showAllPhase1 s false with
        manualOverrides := ([] : List String) } : FormSt).visibilityCache = none :=
      showAllPhase1_false_removes s p conds c t hm hc ht
    obtain ⟨t', hfin, hshown⟩ := phase2_fold_correct
      (({ showAllPhase1 s false with
        manualOverrides := ([] : List String) }).conditionMap)
      { showAllPhase1 s false with manualOverrides := ([] : List String) }
      p conds c t hm2 hnd2 hsub hs2sa rfl hc ht2 hcache2
    refine ⟨t', hfin, ?_⟩
    rw [hshown, fieldTypeIsCheckbox_congr s _ hs2f p,
      checkedValuesOf_congr s _ hs2f p]
    exact entryShouldShow_eq_true_iff _ _ c

/-- The base-model statement checked on the concrete one-entry form:
after `setShowAll false` no override remains and `T` matches its (unmet)
condition. -/
theorem setShowAll_off_base_example :
    (setShowAll exC6 false).manualOverrides = [] ∧
      ∃ t', lookupA exCond.targetId (setShowAll exC6 false).elements = some t' ∧
        (t'.shown = true ↔
          (if fieldTypeIsCheckbox exC6 "P" = true then
            ∃ v ∈ checkedValuesOf exC6 "P", v ∈ exCond.showValues
           else ∃ v, (checkedValuesOf exC6 "P").head? = some v ∧
            v ∈ exCond.showValues)) :=
  ⟨(setShowAll_off_base exC6 (by decide) (by decide)).1,
   (setShowAll_off_base exC6 (by decide) (by decide)).2 "P" [exCond] exCond exElemT
     (by decide) (by decide) (by decide)⟩

/-! Navigation. -/

theorem findNextVisible_some_spec (s : FormSt) :
    ∀ (m i j : Nat), s.questionList.length - i ≤ m →
      findNextVisible s i = some j →
      i ≤ j ∧ j < s.questionList.length ∧ isVisibleAt s j = true ∧
        ∀ k, i ≤ k → k < j → isVisibleAt s k = false := by
  intro m
  induction m with
  | zero =>
    intro i j hm hf
    rw [findNextVisible] at hf
    rw [dif_neg (by omega)] at hf
    cases hf
  | succ n ihn =>
    intro i j hm hf
    rw [findNextVisible] at hf
    by_cases hlt : i < s.questionList.length
    · rw [dif_pos hlt] at hf
      by_cases hv : isVisibleAt s i = true
      · rw [if_pos hv] at hf
        cases hf
        exact ⟨Nat.le_refl i, hlt, hv, fun k hk1 hk2 => by omega⟩
      · rw [if_neg hv] at hf
        rw [Bool.not_eq_true] at hv
        obtain ⟨h1, h2, h3, h4⟩ := ihn (i + 1) j (by omega) hf
        refine ⟨by omega, h2, h3, ?_⟩
        intro k hk1 hk2
        by_cases hki : k = i
        · rw [hki]
          exact hv
        · exact h4 k (by omega) hk2
    · rw [dif_neg hlt] at hf
      cases hf

theorem findNextVisible_none_spec (s : FormSt) :
    ∀ (m i : Nat), s.questionList.length - i ≤ m → findNextVisible s i = none →
      ∀ k, i ≤ k → k < s.questionList.length → isVisibleAt s k = false := by
  intro m
  induction m with
  | zero =>
    intro i hm hf k hk1 hk2
    omega
  | succ n ihn =>
    intro i hm hf k hk1 hk2
    rw [findNextVisible] at hf
    by_cases hlt : i < s.questionList.length
    · rw [dif_pos hlt] at hf
      by_cases hv : isVisibleAt s i = true
      · rw [if_pos hv] at hf
        cases hf
      · rw [if_neg hv] at hf
        rw [Bool.not_eq_true] at hv
        by_cases hki : k = i
        · rw [hki]
          exact hv
        · exact ihn (i + 1) (by omega) hf k (by omega) hk2
    · omega

theorem findPrevVisible_some_spec (s : FormSt) :
    ∀ (b j : Nat), findPrevVisible s b = some j →
      j < b ∧ isVisibleAt s j = true ∧
        ∀ k, j < k → k < b → isVisibleAt s k = false := by
  intro b
  induction b with
  | zero =>
    intro j hf
    cases hf
  | succ n ih =>
    intro j hf
    unfold findPrevVisible at hf
    by_cases hv : isVisibleAt s n = true
    · rw [if_pos hv] at hf
      cases hf
      exact ⟨Nat.lt_succ_self n, hv, fun k hk1 hk2 => by omega⟩
    · rw [if_neg hv] at hf
      rw [Bool.not_eq_true] at hv
      obtain ⟨h1, h2, h3⟩ := ih j hf
      refine ⟨by omega, h2, ?_⟩
      intro k hk1 hk2
      by_cases hkn : k = n
      · rw [hkn]
        exact hv
      · exact h3 k hk1 (by omega)

theorem findPrevVisible_none_spec (s : FormSt) :
    ∀ b, findPrevVisible s b = none → ∀ k, k < b → isVisibleAt s k = false := by
  intro b
  induction b with
  | zero =>
    intro hf k hk
    omega
  | succ n ih =>
    intro hf k hk
    unfold findPrevVisible at hf
    by_cases hv : isVisibleAt s n = true
    · rw [if_pos hv] at hf
      cases hf
    · rw [if_neg hv] at hf
      rw [Bool.not_eq_true] at hv
      by_cases hkn : k = n
      · rw [hkn]
        exact hv
      · exact ih hf k (by omega)

theorem isVisibleAt_exists (s : FormSt) (j : Nat) (h : isVisibleAt s j = true) :
    ∃ nm e, s.questionList.get? j = some nm ∧ lookupA nm s.elements = some e ∧
      isVisibleElem s e = true := by
  unfold isVisibleAt at h
  cases h1 : s.questionList.get? j with
  | none =>
    rw [h1] at h
    cases h
  | some nm =>
    simp only [h1] at h
    cases h2 : lookupA nm s.elements with
    | none =>
      simp only [h2] at h
      cases h
    | some e =>
      simp only [h2] at h
      exact ⟨nm, e, rfl, h2, h⟩

theorem currentName_at (s : FormSt) (j : Nat) :
    currentName { s with questionIndex := (j : Int) } = s.questionList.get? j := by
  show (if (j : Int) < 0 then none
        else s.questionList.get? ((j : Int)).toNat) = s.questionList.get? j
  rw [if_neg (by omega)]
  simp

theorem setQuestionIndex_lands (s : FormSt) (j : Nat) (tr : Option Nat)
    (hj : j < s.questionList.length) (nm : String) (e : Elem)
    (hnm : s.questionList.get? j = some nm) (he : lookupA nm s.elements = some e) :
    setQuestionIndex s (j : Int) tr =
      ({ s with
          questionIndex := (j : Int),
          tableRowIndex := if e.isTable = true then tr.getD 0 else 0 }, true) := by
  have hcn : currentName { s with questionIndex := (j : Int) } = some nm := by
    rw [currentName_at s j, hnm]
  have hcur : getCurrentQuestion { s with questionIndex := (j : Int) } = some e := by
    unfold getCurrentQuestion
    rw [hcn]
    exact he
  have hguard : ¬((j : Int) < -1 ∨ (j : Int) ≥ (s.questionList.length : Int)) := by
    omega
  simp only [setQuestionIndex, hguard, if_false, hcur]
  by_cases hT : e.isTable = true
  · rw [if_pos hT, if_pos hT]
  · rw [if_neg hT, if_neg hT]

theorem setQuestionIndex_sentinel (s : FormSt) :
    setQuestionIndex s (-1) none =
      ({ s with questionIndex := -1, tableRowIndex := 0 }, true) := by
  have hcn : currentName { s with questionIndex := (-1 : Int) } = none := by
    show (if (-1 : Int) < 0 then none
          else s.questionList.get? ((-1 : Int)).toNat) = none
    rw [if_pos (by omega)]
  have hcur : getCurrentQuestion { s with questionIndex := (-1 : Int) } = none := by
    unfold getCurrentQuestion
    rw [hcn]
  have hguard : ¬((-1 : Int) < -1 ∨ (-1 : Int) ≥ (s.questionList.length : Int)) := by
    omega
  simp only [setQuestionIndex, hguard, if_false, hcur]

theorem setTableRowIndex_ok (s : FormSt) (rows : List String) (i : Int)
    (hcfg : getTableConfig s = some rows) (h0 : 0 ≤ i)
    (h1 : i ≤ (rowsMax rows : Int)) :
    setTableRowIndex s i = ({ s with tableRowIndex := i.toNat }, true) := by
  simp only [setTableRowIndex, hcfg]
  rw [if_neg (by omega)]

/-- Claim C3: cursor transition correctness of `Navigator.moveNext` and
`Navigator.movePrev`.  `moveNext` on a table question below the last row
only advances the table row; otherwise it scans forward and lands on the
first visible question after the cursor with the row reset to 0, and when
no visible question remains it leaves the state alone and reports failure
(the source emits the end event there).  `movePrev` is symmetric scanning
backward, except that a table question is entered at its last row, and it
falls back to the id-entry sentinel when no visible question precedes. -/
theorem navigator_move_spec (s : FormSt) :
    (∀ e rows, getCurrentQuestion s = some e → e.isTable = true →
        getTableConfig s = some rows → s.tableRowIndex < rowsMax rows →
        moveNext s = ({ s with tableRowIndex := s.tableRowIndex + 1 }, true)) ∧
    (∀ j, (∀ e, getCurrentQuestion s = some e → e.isTable = true →
          ¬ s.tableRowIndex < maxRowCur s) →
        findNextVisible s (s.questionIndex + 1).toNat = some j →
        moveNext s = ({ s with questionIndex := (j : Int), tableRowIndex := 0 }, true) ∧
          isVisibleAt s j = true ∧
          ∀ k, (s.questionIndex + 1).toNat ≤ k → k < j → isVisibleAt s k = false) ∧
    ((∀ e, getCurrentQuestion s = some e → e.isTable = true →
          ¬ s.tableRowIndex < maxRowCur s) →
        findNextVisible s (s.questionIndex + 1).toNat = none →
        moveNext s = (s, false) ∧
          ∀ k, (s.questionIndex + 1).toNat ≤ k → k < s.questionList.length →
            isVisibleAt s k = false) ∧
    (∀ e rows, getCurrentQuestion s = some e → e.isTable = true →
        getTableConfig s = some rows → 0 < s.tableRowIndex →
        s.tableRowIndex ≤ rowsMax rows →
        movePrev s = ({ s with tableRowIndex := s.tableRowIndex - 1 }, true)) ∧
    (∀ j nm e, (∀ e0, getCurrentQuestion s = some e0 → e0.isTable = true →
          s.tableRowIndex = 0) →
        findPrevVisible s s.questionIndex.toNat = some j →
        s.questionList.get? j = some nm → lookupA nm s.elements = some e →
        movePrev s =
          ({ s with
              questionIndex := (j : Int),
              tableRowIndex := if e.isTable = true then maxRowOf s nm else 0 }, true) ∧
          isVisibleAt s j = true ∧
          ∀ k, j < k → k < s.questionIndex.toNat → isVisibleAt s k = false) ∧
    ((∀ e0, getCurrentQuestion s = some e0 → e0.isTable = true →
          s.tableRowIndex = 0) →
        findPrevVisible s s.questionIndex.toNat = none →
        movePrev s = ({ s with questionIndex := -1, tableRowIndex := 0 }, true) ∧
          ∀ k, k < s.questionIndex.toNat → isVisibleAt s k = false) := by
  refine ⟨?_, ?_, ?_, ?_, ?_, ?_⟩
  · intro e rows he hT hcfg hlt
    have hmax : maxRowCur s = rowsMax rows := by
      simp only [maxRowCur, hcfg]
    have hg : e.isTable = true ∧ s.tableRowIndex < maxRowCur s :=
      ⟨hT, by rw [hmax]; exact hlt⟩
    have hstep : setTableRowIndex s ((s.tableRowIndex : Int) + 1) =
        ({ s with tableRowIndex := s.tableRowIndex + 1 }, true) := by
      have h2 : (((s.tableRowIndex : Int) + 1)).toNat = s.tableRowIndex + 1 := by
        omega
      rw [setTableRowIndex_ok s rows _ hcfg (by omega) (by omega), h2]
    simp only [moveNext, he]
    rw [if_pos hg]
    exact hstep
  · intro j hrow hf
    obtain ⟨hle, hjlen, hvis, hfirst⟩ :=
      findNextVisible_some_spec s s.questionList.length _ j (by omega) hf
    obtain ⟨nm, e, hnm, he, _⟩ := isVisibleAt_exists s j hvis
    refine ⟨?_, hvis, hfirst⟩
    cases hq : getCurrentQuestion s with
    | none =>
      simp only [moveNext, hq, hf]
      rw [setQuestionIndex_lands s j none hjlen nm e hnm he]
      cases hT : e.isTable <;> simp
    | some e0 =>
      have hneg : ¬(e0.isTable = true ∧ s.tableRowIndex < maxRowCur s) := by
        rintro ⟨h1, h2⟩
        exact hrow e0 hq h1 h2
      simp only [moveNext, hq]
      rw [if_neg hneg]
      simp only [hf]
      rw [setQuestionIndex_lands s j none hjlen nm e hnm he]
      cases hT : e.isTable <;> simp
  · intro hrow hf
    refine ⟨?_, findNextVisible_none_spec s s.questionList.length _ (by omega) hf⟩
    cases hq : getCurrentQuestion s with
    | none =>
      simp only [moveNext, hq, hf]
    | some e0 =>
      have hneg : ¬(e0.isTable = true ∧ s.tableRowIndex < maxRowCur s) := by
        rintro ⟨h1, h2⟩
        exact hrow e0 hq h1 h2
      simp only [moveNext, hq]
      rw [if_neg hneg]
      simp only [hf]
  · intro e rows he hT hcfg h0 hmaxle
    have hg : e.isTable = true ∧ 0 < s.tableRowIndex := ⟨hT, h0⟩
    have hstep : setTableRowIndex s ((s.tableRowIndex : Int) - 1) =
        ({ s with tableRowIndex := s.tableRowIndex - 1 }, true) := by
      have h2 : (((s.tableRowIndex : Int) - 1)).toNat = s.tableRowIndex - 1 := by
        omega
      rw [setTableRowIndex_ok s rows _ hcfg (by omega) (by omega), h2]
    simp only [movePrev, he]
    rw [if_pos hg]
    exact hstep
  · intro j nm e hrow hf hnm he
    obtain ⟨hjlt, hvis, hfirst⟩ := findPrevVisible_some_spec s s.questionIndex.toNat j hf
    have hjlen : j < s.questionList.length := by
      by_contra hcon
      rw [List.get?_eq_none.mpr (by omega)] at hnm
      cases hnm
    refine ⟨?_, hvis, hfirst⟩
    have hland := setQuestionIndex_lands s j (some (maxRowOf s nm)) hjlen nm e hnm he
    have hland0 := setQuestionIndex_lands s j none hjlen nm e hnm he
    cases hq : getCurrentQuestion s with
    | none =>
      simp only [movePrev, hq, hf, hnm, he]
      by_cases hT : e.isTable = true
      · rw [if_pos hT, hland]
        simp [hT]
      · rw [if_neg hT, hland0]
        simp [hT]
    | some e0 =>
      have hneg : ¬(e0.isTable = true ∧ 0 < s.tableRowIndex) := by
        rintro ⟨h1, h2⟩
        rw [hrow e0 hq h1] at h2
        exact absurd h2 (by omega)
      simp only [movePrev, hq]
      rw [if_neg hneg]
      simp only [hf, hnm, he]
      by_cases hT : e.isTable = true
      · rw [if_pos hT, hland]
        simp [hT]
      · rw [if_neg hT, hland0]
        simp [hT]
  · intro hrow hf
    refine ⟨?_, findPrevVisible_none_spec s _ hf⟩
    cases hq : getCurrentQuestion s with
    | none =>
      simp only [movePrev, hq, hf]
      exact setQuestionIndex_sentinel s
    | some e0 =>
      have hneg : ¬(e0.isTable = true ∧ 0 < s.tableRowIndex) := by
        rintro ⟨h1, h2⟩
        rw [hrow e0 hq h1] at h2
        exact absurd h2 (by omega)
      simp only [movePrev, hq]
      rw [if_neg hneg]
      simp only [hf]
      exact setQuestionIndex_sentinel s

/-- Witness for claim C3: on the concrete three-question form, `moveNext`
from the plain first question skips the hidden conditional and lands on
the table question at row 0; in the reversed form, `movePrev` from the
last question skips the hidden conditional and lands on the table
question at its last row. -/
theorem navigator_move_spec_witness :
    moveNext exNav = ({ exNav with questionIndex := 2, tableRowIndex := 0 }, true) ∧
    movePrev exNavB = ({ exNavB with questionIndex := 0, tableRowIndex := 1 }, true) := by
  constructor
  · have hrow : ∀ e : Elem, getCurrentQuestion exNav = some e →
        e.isTable = true → ¬ exNav.tableRowIndex < maxRowCur exNav := by
      intro e he hT
      have he1 : getCurrentQuestion exNav = some exElemQ1 := by rfl
      rw [he1] at he
      injection he with he2
      rw [← he2] at hT
      exact absurd hT (by decide)
    have hf : findNextVisible exNav 1 = some 2 := by
      rw [findNextVisible]
      rw [dif_pos (by decide)]
      rw [if_neg (by decide)]
      rw [findNextVisible]
      rw [dif_pos (by decide)]
      rw [if_pos (by decide)]
    exact ((navigator_move_spec exNav).2.1 2 hrow hf).1
  · have hrow : ∀ e0 : Elem, getCurrentQuestion exNavB = some e0 →
        e0.isTable = true → exNavB.tableRowIndex = 0 := by
      intro e0 he hT
      rfl
    have hf : findPrevVisible exNavB (exNavB.questionIndex).toNat = some 0 := by
      decide
    have hnm : exNavB.questionList.get? 0 = some "Q3" := by rfl
    have he : lookupA "Q3" exNavB.elements = some exElemQ3 := by rfl
    exact ((navigator_move_spec exNavB).2.2.2.2.1 0 "Q3" exElemQ3 hrow hf hnm he).1

/-! The answer/input aliasing: simulation of the full DOM run by the base
run when no condition parent's answers sit in a clearable subtree. -/

theorem lookupA_mem {β : Type} (k : String) (v : β) :
    ∀ l : List (String × β), lookupA k l = some v → (k, v) ∈ l := by
  intro l
  induction l with
  | nil =>
    intro h
    cases h
  | cons hd tl ih =>
    intro h
    obtain ⟨k1, v1⟩ := hd
    unfold lookupA at h
    by_cases hk : k1 = k
    · rw [if_pos hk] at h
      injection h with h2
      rw [← hk, ← h2]
      exact List.mem_cons_self _ _
    · rw [if_neg hk] at h
      exact List.mem_cons_of_mem _ (ih h)

theorem mem_setA {β : Type} (k : String) (v : β) :
    ∀ (l : List (String × β)) (pr : String × β),
      pr ∈ setA k v l → pr = (k, v) ∨ pr ∈ l := by
  intro l
  induction l with
  | nil =>
    intro pr h
    unfold setA at h
    exact Or.inl (List.mem_singleton.mp h)
  | cons hd tl ih =>
    intro pr h
    obtain ⟨k1, v1⟩ := hd
    unfold setA at h
    by_cases hk : k1 = k
    · rw [if_pos hk] at h
      rcases List.mem_cons.mp h with heq | hm
      · exact Or.inl heq
      · exact Or.inr (List.mem_cons_of_mem _ hm)
    · rw [if_neg hk] at h
      rcases List.mem_cons.mp h with heq | hm
      · refine Or.inr ?_
        rw [heq]
        exact List.mem_cons_self _ _
      · rcases ih pr hm with h1 | h2
        · exact Or.inl h1
        · exact Or.inr (List.mem_cons_of_mem _ h2)

theorem mem_clearUnder_ownFields (tid : String) (elems : List (String × Elem)) :
    ∀ pr ∈ clearUnder tid elems, ∃ q ∈ elems, pr.2.ownFields = q.2.ownFields := by
  intro pr h
  unfold clearUnder at h
  cases hl : lookupA tid elems with
  | none =>
    rw [hl] at h
    exact ⟨pr, h, rfl⟩
  | some t =>
    rw [hl] at h
    obtain ⟨q, hq, heq⟩ := List.mem_map.mp h
    refine ⟨q, hq, ?_⟩
    rw [← heq]
    by_cases hc : q.1 = tid ∨ q.1 ∈ t.nested
    · rw [if_pos hc]
    · rw [if_neg hc]

theorem lookupA_clearFieldsIn_not_mem (names : List String) (p : String)
    (hp : p ∉ names) :
    ∀ flds : List (String × Field),
      lookupA p (clearFieldsIn names flds) = lookupA p flds := by
  intro flds
  induction flds with
  | nil => rfl
  | cons hd tl ih =>
    obtain ⟨k1, f1⟩ := hd
    show lookupA p ((if k1 ∈ names then (k1, { f1 with checkedValues := ([] : List Int) })
        else (k1, f1)) :: clearFieldsIn names tl) = lookupA p ((k1, f1) :: tl)
    by_cases hk : k1 ∈ names
    · rw [if_pos hk]
      have hne : k1 ≠ p := fun hh => hp (hh ▸ hk)
      show (if k1 = p then some { f1 with checkedValues := ([] : List Int) }
          else lookupA p (clearFieldsIn names tl)) =
        (if k1 = p then some f1 else lookupA p tl)
      rw [if_neg hne, if_neg hne]
      exact ih
    · rw [if_neg hk]
      show (if k1 = p then some f1 else lookupA p (clearFieldsIn names tl)) =
        (if k1 = p then some f1 else lookupA p tl)
      by_cases hk2 : k1 = p
      · rw [if_pos hk2, if_pos hk2]
      · rw [if_neg hk2, if_neg hk2]
        exact ih

theorem mem_fieldsUnder (tid : String) (elems : List (String × Elem)) (f : String)
    (h : f ∈ fieldsUnder tid elems) : ∃ pr ∈ elems, f ∈ pr.2.ownFields := by
  unfold fieldsUnder at h
  cases hl : lookupA tid elems with
  | none =>
    rw [hl] at h
    cases h
  | some t =>
    rw [hl] at h
    obtain ⟨l, hlm, hfl⟩ := List.mem_flatten.mp h
    obtain ⟨pr, hpr, heq⟩ := List.mem_map.mp hlm
    refine ⟨pr, (List.mem_filter.mp hpr).1, ?_⟩
    rw [heq]
    exact hfl

theorem noParentUnderClear_setA (cm : List (String × List Cond))
    (es : List (String × Elem)) (tid : String) (e' : Elem)
    (hs : NoParentUnderClear cm es)
    (he' : ∀ f ∈ e'.ownFields, f ∉ cm.map Prod.fst) :
    NoParentUnderClear cm (setA tid e' es) := by
  intro pr hpr f hf
  rcases mem_setA tid e' es pr hpr with heq | hm
  · rw [heq] at hf
    exact he' f hf
  · exact hs pr hm f hf

theorem noParentUnderClear_clearUnder (cm : List (String × List Cond))
    (es : List (String × Elem)) (tid : String)
    (hs : NoParentUnderClear cm es) :
    NoParentUnderClear cm (clearUnder tid es) := by
  intro pr hpr f hf
  obtain ⟨q, hq, hof⟩ := mem_clearUnder_ownFields tid es pr hpr
  rw [hof] at hf
  exact hs q hq f hf

theorem noParentUnderClear_processTargetDom (cm : List (String × List Cond))
    (a : FormSt) (tid : String) (v : Bool)
    (hs : NoParentUnderClear cm a.elements) :
    NoParentUnderClear cm (processTargetDom a tid v).elements := by
  unfold processTargetDom
  cases hl : lookupA tid a.elements with
  | none => exact hs
  | some t =>
    have ht' : ∀ f ∈ ({ t with shown := v } : Elem).ownFields, f ∉ cm.map Prod.fst := by
      intro f hf
      exact hs (tid, t) (lookupA_mem tid t a.elements hl) f hf
    have h1 : NoParentUnderClear cm (setA tid { t with shown := v } a.elements) :=
      noParentUnderClear_setA cm a.elements tid _ hs ht'
    show NoParentUnderClear cm
      (if v = true then setA tid { t with shown := v } a.elements
       else clearUnder tid (setA tid { t with shown := v } a.elements))
    by_cases hv : v = true
    · rw [if_pos hv]
      exact h1
    · rw [if_neg hv]
      exact noParentUnderClear_clearUnder cm _ tid h1

theorem agree_processTargetDom (cm : List (String × List Cond)) (a b : FormSt)
    (tid : String) (v : Bool) (hag : AgreeCore cm a b)
    (hsafe : NoParentUnderClear cm a.elements) :
    AgreeCore cm (processTargetDom a tid v) (processTarget b tid v) := by
  obtain ⟨hacm, hbcm, hel, hvc, hov, hsa, hf⟩ := hag
  rw [hel] at hsafe
  unfold processTargetDom processTarget
  rw [hel, hvc]
  cases hlb : lookupA tid b.elements with
  | none => exact ⟨hacm, hbcm, hel, hvc, hov, hsa, hf⟩
  | some t =>
    refine ⟨hacm, hbcm, rfl, rfl, hov, hsa, ?_⟩
    intro p hp
    show lookupA p (if v = true then a.fields
        else clearFieldsIn (fieldsUnder tid b.elements) a.fields) = lookupA p b.fields
    by_cases hv : v = true
    · rw [if_pos hv]
      exact hf p hp
    · rw [if_neg hv]
      have hnotin : p ∉ fieldsUnder tid b.elements := by
        intro hin
        obtain ⟨pr, hpr, hofm⟩ := mem_fieldsUnder tid b.elements p hin
        exact hsafe pr hpr p hofm hp
      rw [lookupA_clearFieldsIn_not_mem _ p hnotin a.fields]
      exact hf p hp

theorem agree_evalCondStepDom (cm : List (String × List Cond)) (isCb : Bool)
    (vs : List Int) (a b : FormSt) (c : Cond) (hag : AgreeCore cm a b)
    (hsafe : NoParentUnderClear cm a.elements) :
    AgreeCore cm (evalCondStepDom isCb vs a c) (evalCondStep isCb vs b c) := by
  obtain ⟨hacm, hbcm, hel, hvc, hov, hsa, hf⟩ := hag
  unfold evalCondStepDom evalCondStep
  rw [hsa, hov, hvc]
  by_cases hskip : b.showAll = true ∨ c.targetId ∈ b.manualOverrides
  · rw [if_pos hskip, if_pos hskip]
    exact ⟨hacm, hbcm, hel, hvc, hov, hsa, hf⟩
  · rw [if_neg hskip, if_neg hskip]
    cases hc : lookupA c.targetId b.visibilityCache with
    | some was =>
      show AgreeCore cm
        (if was = entryShouldShow isCb vs c then a
         else processTargetDom a c.targetId (entryShouldShow isCb vs c))
        (if was = entryShouldShow isCb vs c then b
         else processTarget b c.targetId (entryShouldShow isCb vs c))
      by_cases hw : was = entryShouldShow isCb vs c
      · rw [if_pos hw, if_pos hw]
        exact ⟨hacm, hbcm, hel, hvc, hov, hsa, hf⟩
      · rw [if_neg hw, if_neg hw]
        exact agree_processTargetDom cm a b c.targetId _
          ⟨hacm, hbcm, hel, hvc, hov, hsa, hf⟩ hsafe
    | none =>
      exact agree_processTargetDom cm a b c.targetId _
        ⟨hacm, hbcm, hel, hvc, hov, hsa, hf⟩ hsafe

theorem noParentUnderClear_evalCondStepDom (cm : List (String × List Cond))
    (isCb : Bool) (vs : List Int) (a : FormSt) (c : Cond)
    (hs : NoParentUnderClear cm a.elements) :
    NoParentUnderClear cm (evalCondStepDom isCb vs a c).elements := by
  unfold evalCondStepDom
  by_cases hskip : a.showAll = true ∨ c.targetId ∈ a.manualOverrides
  · rw [if_pos hskip]
    exact hs
  · rw [if_neg hskip]
    cases hc : lookupA c.targetId a.visibilityCache with
    | some was =>
      show NoParentUnderClear cm
        (if was = entryShouldShow isCb vs c then a
         else processTargetDom a c.targetId (entryShouldShow isCb vs c)).elements
      by_cases hw : was = entryShouldShow isCb vs c
      · rw [if_pos hw]
        exact hs
      · rw [if_neg hw]
        exact noParentUnderClear_processTargetDom cm a c.targetId _ hs
    | none => exact noParentUnderClear_processTargetDom cm a c.targetId _ hs

theorem fold_conds_sim (cm : List (String × List Cond)) (isCb : Bool)
    (vs : List Int) (conds : List Cond) :
    ∀ a b : FormSt, AgreeCore cm a b → NoParentUnderClear cm a.elements →
      AgreeCore cm (conds.foldl (evalCondStepDom isCb vs) a)
          (conds.foldl (evalCondStep isCb vs) b) ∧
        NoParentUnderClear cm (conds.foldl (evalCondStepDom isCb vs) a).elements := by
  induction conds with
  | nil => exact fun a b hag hs => ⟨hag, hs⟩
  | cons c0 cs ih =>
    intro a b hag hs
    rw [List.foldl_cons, List.foldl_cons]
    exact ih _ _ (agree_evalCondStepDom cm isCb vs a b c0 hag hs)
      (noParentUnderClear_evalCondStepDom cm isCb vs a c0 hs)

theorem reevalParentStepDom_sim (cm : List (String × List Cond))
    (pc : String × List Cond) (a b : FormSt) (hp : pc.1 ∈ cm.map Prod.fst)
    (hag : AgreeCore cm a b) (hs : NoParentUnderClear cm a.elements) :
    AgreeCore cm (reevalParentStepDom a pc) (reevalParentStep b pc) ∧
      NoParentUnderClear cm (reevalParentStepDom a pc).elements := by
  obtain ⟨hacm, hbcm, hel, hvc, hov, hsa, hf⟩ := hag
  have hfp : lookupA pc.1 a.fields = lookupA pc.1 b.fields := hf pc.1 hp
  have hft : fieldTypeIsCheckbox a pc.1 = fieldTypeIsCheckbox b pc.1 := by
    unfold fieldTypeIsCheckbox
    rw [hfp]
  have hcv : checkedValuesOf a pc.1 = checkedValuesOf b pc.1 := by
    unfold checkedValuesOf
    rw [hfp]
  have hcm2 : lookupA pc.1 a.conditionMap = lookupA pc.1 b.conditionMap := by
    rw [hacm, hbcm]
  unfold reevalParentStepDom reevalParentStep evaluateDom evaluate
  rw [hft, hcv, hcm2]
  cases hc : lookupA pc.1 b.conditionMap with
  | none => exact ⟨⟨hacm, hbcm, hel, hvc, hov, hsa, hf⟩, hs⟩
  | some conds =>
    exact fold_conds_sim cm (fieldTypeIsCheckbox b pc.1) (checkedValuesOf b pc.1)
      conds a b ⟨hacm, hbcm, hel, hvc, hov, hsa, hf⟩ hs

theorem fold_parents_sim (cm : List (String × List Cond)) :
    ∀ (pcs : List (String × List Cond)) (a b : FormSt),
      (∀ pc ∈ pcs, pc.1 ∈ cm.map Prod.fst) → AgreeCore cm a b →
      NoParentUnderClear cm a.elements →
      AgreeCore cm (pcs.foldl reevalParentStepDom a)
        (pcs.foldl reevalParentStep b) := by
  intro pcs
  induction pcs with
  | nil => exact fun a b _ hag _ => hag
  | cons pc0 rest ih =>
    intro a b hsub hag hs
    rw [List.foldl_cons, List.foldl_cons]
    obtain ⟨hag1, hs1⟩ := reevalParentStepDom_sim cm pc0 a b
      (hsub pc0 (List.mem_cons_self _ _)) hag hs
    exact ih _ _ (fun pc hpc => hsub pc (List.mem_cons_of_mem _ hpc)) hag1 hs1

theorem setShowAllDom_false_eq (s : FormSt) :
    setShowAllDom s false =
      ({ showAllPhase1 s false with
          manualOverrides := ([] : List String) }).conditionMap.foldl
        reevalParentStepDom
        { showAllPhase1 s false with manualOverrides := ([] : List String) } := by
  simp only [setShowAllDom, Bool.false_eq_true, if_false]

theorem setShowAllDom_off_agrees (s : FormSt)
    (hsafe : NoParentUnderClear s.conditionMap s.elements) :
    AgreeCore s.conditionMap (setShowAllDom s false) (setShowAll s false) := by
  have hcm : (showAllPhase1 s false).conditionMap = s.conditionMap :=
    (showAllPhase1_static s false).1
  have hel : (showAllPhase1 s false).elements = s.elements :=
    (showAllPhase1_false_parts s).1
  rw [setShowAllDom_false_eq s, setShowAll_false_eq s]
  refine fold_parents_sim s.conditionMap _ _ _ ?_
    ⟨hcm, hcm, rfl, rfl, rfl, rfl, fun p hp => rfl⟩ ?_
  · intro pc hpc
    have hpc2 : pc ∈ s.conditionMap := by
      rw [← hcm]
      exact hpc
    exact List.mem_map_of_mem Prod.fst hpc2
  · show NoParentUnderClear s.conditionMap (showAllPhase1 s false).elements
    rw [hel]
    exact hsafe

/-- Claim C9 (amended): `setShowAll(false)` always empties the entire
manual-override set and re-evaluates every parent of the condition table
in declaration order, each against the answers as they stand at its turn.
When no condition parent's answer inputs sit inside a clearable container
— so the cascaded `_clearInputs` of hidden subtrees cannot erase an answer
the pass still reads — every conditional target that exists afterwards is
visible exactly when its real condition holds. Stated under the
condition-table invariants: parents are unique keys (a JS object) and
every target is governed by exactly one entry. -/
theorem setShowAll_off_dom_spec (s : FormSt)
    (hkeys : (s.conditionMap.map Prod.fst).Nodup)
    (htargets : (allTargets s.conditionMap).Nodup)
    (hsafe : NoParentUnderClear s.conditionMap s.elements) :
    (setShowAllDom s false).manualOverrides = [] ∧
      ∀ p conds c t, (p, conds) ∈ s.conditionMap → c ∈ conds →
        lookupA c.targetId s.elements = some t →
        ∃ t', lookupA c.targetId (setShowAllDom s false).elements = some t' ∧
          (t'.shown = true ↔
            (if fieldTypeIsCheckbox s p = true then
              ∃ v ∈ checkedValuesOf s p, v ∈ c.showValues
             else ∃ v, (checkedValuesOf s p).head? = some v ∧
              v ∈ c.showValues)) := by
  obtain ⟨h1, h2, hel, hvc, hov, hsa, hfl⟩ := setShowAllDom_off_agrees s hsafe
  have hbase := setShowAll_off_base s hkeys htargets
  constructor
  · rw [hov]
    exact hbase.1
  · intro p conds c t hm hc ht
    obtain ⟨t', hfin, hiff⟩ := hbase.2 p conds c t hm hc ht
    refine ⟨t', ?_, hiff⟩
    rw [hel]
    exact hfin

/-- Witness for C9 on the concrete one-entry form, whose only answer field
sits outside the clearable subtree: after `setShowAll false` in the full
DOM model no override remains and `T` matches its (unmet) condition. -/
theorem setShowAll_off_dom_spec_witness :
    (setShowAllDom exC6 false).manualOverrides = [] ∧
      ∃ t', lookupA exCond.targetId (setShowAllDom exC6 false).elements = some t' ∧
        (t'.shown = true ↔
          (if fieldTypeIsCheckbox exC6 "P" = true then
            ∃ v ∈ checkedValuesOf exC6 "P", v ∈ exCond.showValues
           else ∃ v, (checkedValuesOf exC6 "P").head? = some v ∧
            v ∈ exCond.showValues)) :=
  ⟨(setShowAll_off_dom_spec exC6 (by decide) (by decide) (by decide)).1,
   (setShowAll_off_dom_spec exC6 (by decide) (by decide) (by decide)).2
     "P" [exCond] exCond exElemT (by decide) (by decide) (by decide)⟩

/-- Claim C9 counterexample: in the nested-condition pattern with the
nested parent declared first, `setShowAll(false)` leaves `q_Q6_1_1_year`
visible although its real condition is unmet afterwards. `Q6_1_1`'s turn
consumes the answer `1` and shows the year question; then `Q6_1`'s turn
hides `q_Q6_1_1` and `_clearInputs` unchecks `Q6_1_1`'s radio — the very
inputs its condition reads — and the pass never revisits the stale
target. -/
theorem setShowAll_off_stale_target :
    (∃ t', lookupA "q_Q6_1_1_year" (setShowAllDom exC9 false).elements = some t' ∧
        t'.shown = true) ∧
      isConditionMet (setShowAllDom exC9 false) "q_Q6_1_1_year" = false :=
  ⟨⟨exElemYear, by decide, by decide⟩, by decide⟩
